import Mathlib

/-!
Verification development for the "ranked" local-first list-ranking app.

The definitions below are a shallow embedding of the app's data layer:
the SQLite-backed local store (tables `ranking`, `item`, `sync_queue` from
src/db/database.ts), the record service (src/db/rankingService.ts), the sync
queue (src/services/syncQueue.ts), the sync service's migration flow
(src/services/syncService.ts), the login reconciliation handler
(src/contexts/AuthContext.tsx) and the import-text parser
(src/utils/parseRankingListInput.ts).

SQL statements are modelled as list transformations over row lists; JavaScript
truthiness on optional strings and numbers (the `x || fallback` idiom) is made
explicit through the `jsOr*` helpers. Remote (Supabase) effects are modelled
as opaque parameters where an operation's local behaviour is what matters.
-/

/-- JavaScript `x || null` on an optional string: the empty string is falsy. -/
def jsOrStr : Option String → Option String
  | some "" => none
  | x => x

/-- JavaScript `s || null` on a plain string: empty becomes null. -/
def jsStrOrNull (s : String) : Option String :=
  if s = "" then none else some s

/-- JavaScript `n || null` on an optional number: zero is falsy. -/
def jsOrNat : Option Nat → Option Nat
  | some 0 => none
  | x => x

/-- JavaScript `a || b` on optional strings: undefined and "" both fall through. -/
def jsOrOpt : Option String → Option String → Option String
  | some s, b => if s = "" then b else some s
  | none, b => b

/-- The guard `if (u && u !== 'anonymous')` used before every outbox enqueue:
returns the user only when it is a truthy, non-anonymous identifier. -/
def authUser : Option String → Option String
  | some s => if s = "" ∨ s = "anonymous" then none else some s
  | none => none

/-- JavaScript truthiness of an optional string (used on `supabase_id`). -/
def strTruthy : Option String → Bool
  | some s => s != ""
  | none => false

/-- Row of the `ranking` table (database.ts, `CREATE TABLE ranking`). -/
structure RankingRow where
  id : Nat
  user_id : String
  title : String
  description : Option String
  supabase_id : Option String
  synced : Bool
deriving DecidableEq

/-- Row of the `item` table (database.ts, `CREATE TABLE item`). -/
structure ItemRow where
  id : Nat
  ranking_id : Nat
  user_id : String
  name : String
  notes : Option String
  rank : Int
  supabase_id : Option String
  synced : Bool
deriving DecidableEq

/-- Operation kind of a queued sync operation (syncQueue.ts `QueuedOperation`). -/
inductive SyncOp where
  | create
  | update
  | delete
deriving DecidableEq

/-- Entity kind of a queued sync operation. -/
inductive EntityKind where
  | ranking
  | item
deriving DecidableEq

/-- Row of the `sync_queue` table (syncQueue.ts `QueuedOperation`). -/
structure QueueRow where
  id : Nat
  user_id : String
  operation : SyncOp
  entity_type : EntityKind
  entity_id : Option Nat
  supabase_id : Option String
  payload : Option String
deriving DecidableEq

/-- The local SQLite store: the three tables plus the AUTOINCREMENT counters. -/
structure DB where
  rankings : List RankingRow
  items : List ItemRow
  queue : List QueueRow
  nextRankingId : Nat
  nextItemId : Nat
  nextQueueId : Nat
deriving DecidableEq

/-- Items of one ranking: `SELECT * FROM item WHERE ranking_id = ?`. -/
def DB.itemsOf (db : DB) (rid : Nat) : List ItemRow :=
  db.items.filter (fun it => it.ranking_id = rid)

/-- Queue entries of one owner, in table order. -/
def DB.queueFor (db : DB) (u : String) : List QueueRow :=
  db.queue.filter (fun q => q.user_id = u)

/-- Parsed import line (parseRankingListInput.ts `ParsedItem`). -/
structure ParsedItem where
  name : String
  notes : Option String
deriving DecidableEq

/-- Form data accepted by `createRanking` (rankingService.ts `RankingFormData`). -/
structure RankingFormData where
  title : String
  description : String
  importedItems : Option (List ParsedItem)
deriving DecidableEq

/-- Item as returned to the UI (rankingService.ts `RankingItem`). -/
structure RankingItem where
  id : Nat
  name : String
  notes : Option String
  rank : Int
deriving DecidableEq

/-- Ranking as returned to the UI (rankingService.ts `Ranking`). -/
structure Ranking where
  id : Nat
  title : String
  description : Option String
  items : List RankingItem
deriving DecidableEq

/-- Optional fields of `updateRanking`'s `updates` argument. -/
structure RankingUpdates where
  title : Option String
  description : Option String
deriving DecidableEq

/-- Optional fields of `updateItem`'s `updates` argument. -/
structure ItemUpdates where
  name : Option String
  notes : Option String
deriving DecidableEq

/-- Payload of `addItem`'s `data` argument: name, optional notes, and the rank
at which the caller asks the item to be inserted. -/
structure AddItemData where
  name : String
  notes : Option String
  rank : Int
deriving DecidableEq

namespace SyncQueue

/-- `SyncQueue.enqueue` (syncQueue.ts lines 24-49): a no-op for the anonymous
owner, otherwise appends a `sync_queue` row, applying JavaScript `|| null`
coercions to the optional ids. -/
def enqueue (db : DB) (userId : String) (operation : SyncOp) (entityType : EntityKind)
    (entityId : Option Nat) (supabaseId : Option String) (payload : Option String) : DB :=
  if userId = "anonymous" then db
  else
    { db with
      queue := db.queue ++
        [{ id := db.nextQueueId, user_id := userId, operation := operation,
           entity_type := entityType, entity_id := jsOrNat entityId,
           supabase_id := jsOrStr supabaseId, payload := payload }],
      nextQueueId := db.nextQueueId + 1 }

/-- `DELETE FROM sync_queue WHERE id = ?`. -/
def deleteQueueRow (db : DB) (i : Nat) : DB :=
  { db with queue := db.queue.filter (fun q => q.id ≠ i) }

/-- The processing loop of `SyncQueue.processQueue` (syncQueue.ts lines 70-82):
process each loaded operation in order; on success delete its queue row and
continue; on the first failure stop and surface the error. `procOp` abstracts
`processOperation`, whose effects involve the remote backend; it returns the
(possibly mutated) store and `some` error message when the remote resolution
failed. -/
def drainGo (procOp : DB → QueueRow → DB × Option String) :
    List QueueRow → DB → DB × Option String
  | [], db => (db, none)
  | op :: rest, db =>
    match procOp db op with
    | (db1, some err) => (db1, some err)
    | (db1, none) => drainGo procOp rest (deleteQueueRow db1 op.id)

/-- `SyncQueue.processQueue` (syncQueue.ts lines 54-85): load all queued
operations of the owner ordered by id ascending, then run the loop. -/
def processQueue (procOp : DB → QueueRow → DB × Option String)
    (db : DB) (userId : String) : DB × Option String :=
  let operations :=
    List.insertionSort (fun a b : QueueRow => a.id ≤ b.id)
      (db.queue.filter (fun q => q.user_id = userId))
  drainGo procOp operations db

end SyncQueue

namespace RankingService

/-- The loop body of `createRanking`'s item import (rankingService.ts lines
106-123): insert one `item` row per parsed item, with rank starting at the
given value and counting up. Returns the store together with the created
`RankingItem`s in input order. -/
def insertItemsAux (rid : Nat) (userId : String) :
    List ParsedItem → Int → DB → DB × List RankingItem
  | [], _, db => (db, [])
  | p :: rest, rank, db =>
    let row : ItemRow :=
      { id := db.nextItemId, ranking_id := rid, user_id := userId,
        name := p.name, notes := jsOrStr p.notes, rank := rank,
        supabase_id := none, synced := false }
    let db1 := { db with items := db.items ++ [row], nextItemId := db.nextItemId + 1 }
    let (db2, created) := insertItemsAux rid userId rest (rank + 1) db1
    (db2, { id := row.id, name := p.name, notes := jsOrStr p.notes, rank := rank } :: created)

/-- `RankingService.createRanking` (rankingService.ts lines 90-138): insert the
ranking row, insert one item per imported line with rank = 1-based position,
then enqueue a ranking create when the owner is authenticated. -/
def createRanking (db : DB) (data : RankingFormData) (userId : String) : DB × Ranking :=
  let rid := db.nextRankingId
  let row : RankingRow :=
    { id := rid, user_id := userId, title := data.title,
      description := jsStrOrNull data.description, supabase_id := none, synced := false }
  let db1 := { db with rankings := db.rankings ++ [row], nextRankingId := rid + 1 }
  let step2 :=
    match data.importedItems with
    | some l => if l.length > 0 then insertItemsAux rid userId l 1 db1 else (db1, [])
    | none => (db1, [])
  let db3 :=
    if userId ≠ "anonymous" then
      SyncQueue.enqueue step2.1 userId SyncOp.create EntityKind.ranking (some rid) none none
    else step2.1
  (db3, { id := rid, title := data.title, description := jsStrOrNull data.description,
          items := step2.2 })

/-- `RankingService.deleteRanking` (rankingService.ts lines 143-159): read the
ranking, delete it (items cascade via the `ON DELETE CASCADE` foreign key),
then enqueue a remote delete when it had a supabase id and a real owner. -/
def deleteRanking (db : DB) (id : Nat) : Except String DB :=
  let ranking := db.rankings.find? (fun r => r.id = id)
  let db1 :=
    { db with rankings := db.rankings.filter (fun r => r.id ≠ id),
              items := db.items.filter (fun it => it.ranking_id ≠ id) }
  match ranking with
  | some r =>
    if strTruthy r.supabase_id ∧ r.user_id ≠ "anonymous" then
      Except.ok (SyncQueue.enqueue db1 r.user_id SyncOp.delete EntityKind.ranking
        none r.supabase_id none)
    else Except.ok db1
  | none => Except.ok db1

/-- `RankingService.updateRanking` (rankingService.ts lines 164-184): overwrite
title and description unconditionally (`updates.title || ''`,
`updates.description || null`), then enqueue when the effective owner
(`userId || ranking?.user_id`) is authenticated. A missing id is not detected:
the UPDATE simply affects no row. -/
def updateRanking (db : DB) (id : Nat) (updates : RankingUpdates)
    (userId : Option String) : Except String DB :=
  let ranking := db.rankings.find? (fun r => r.id = id)
  let db1 :=
    { db with rankings := db.rankings.map (fun r =>
        if r.id = id then
          { r with title := updates.title.getD "", description := jsOrStr updates.description }
        else r) }
  match authUser (jsOrOpt userId (ranking.map (fun r => r.user_id))) with
  | some u =>
    Except.ok (SyncQueue.enqueue db1 u SyncOp.update EntityKind.ranking (some id) none none)
  | none => Except.ok db1

/-- `RankingService.deleteItem` (rankingService.ts lines 189-223): inside one
transaction, read the item (failing with 'Item not found' when absent), delete
it, and decrement the rank of every later item of the same ranking; afterwards
enqueue a remote delete when the item was synced and has a real owner. -/
def deleteItem (db : DB) (itemId : Nat) : Except String DB :=
  match db.items.find? (fun it => it.id = itemId) with
  | none => Except.error "Item not found"
  | some item =>
    let db1 :=
      { db with items := (db.items.filter (fun it => it.id ≠ itemId)).map (fun it =>
          if it.ranking_id = item.ranking_id ∧ it.rank > item.rank then
            { it with rank := it.rank - 1 }
          else it) }
    if strTruthy item.supabase_id ∧ item.user_id ≠ "" ∧ item.user_id ≠ "anonymous" then
      Except.ok (SyncQueue.enqueue db1 item.user_id SyncOp.delete EntityKind.item
        none item.supabase_id none)
    else Except.ok db1

/-- The effective owner used by `addItem`:
`userId || ranking?.user_id || 'anonymous'`. -/
def addItemEff (db : DB) (rankingId : Nat) (userId : Option String) : String :=
  (jsOrOpt userId (jsOrOpt ((db.rankings.find? (fun r => r.id = rankingId)).map
    (fun r => r.user_id)) (some "anonymous"))).getD "anonymous"

/-- `RankingService.addItem` (rankingService.ts lines 228-259): insert an item
row with exactly the rank supplied by the caller, then enqueue an item create
when the effective owner is authenticated. -/
def addItem (db : DB) (rankingId : Nat) (data : AddItemData)
    (userId : Option String) : DB × RankingItem :=
  let eff := addItemEff db rankingId userId
  let row : ItemRow :=
    { id := db.nextItemId, ranking_id := rankingId, user_id := eff,
      name := data.name, notes := jsOrStr data.notes, rank := data.rank,
      supabase_id := none, synced := false }
  let db1 := { db with items := db.items ++ [row], nextItemId := db.nextItemId + 1 }
  let db2 :=
    if eff ≠ "anonymous" then
      SyncQueue.enqueue db1 eff SyncOp.create EntityKind.item (some row.id) none none
    else db1
  (db2, { id := row.id, name := data.name, notes := jsOrStr data.notes, rank := data.rank })

/-- `RankingService.updateItem` (rankingService.ts lines 264-284): overwrite
name and notes unconditionally (`updates.name || ''`, `updates.notes || null`)
leaving rank and ranking_id untouched, then enqueue when the effective owner is
authenticated. A missing id is not detected. -/
def updateItem (db : DB) (itemId : Nat) (updates : ItemUpdates)
    (userId : Option String) : Except String DB :=
  let item := db.items.find? (fun it => it.id = itemId)
  let db1 :=
    { db with items := db.items.map (fun it =>
        if it.id = itemId then
          { it with name := updates.name.getD "", notes := jsOrStr updates.notes }
        else it) }
  match authUser (jsOrOpt userId (item.map (fun it => it.user_id))) with
  | some u =>
    Except.ok (SyncQueue.enqueue db1 u SyncOp.update EntityKind.item (some itemId) none none)
  | none => Except.ok db1

/-- `SELECT COALESCE(MAX(rank), 0) ... FROM item WHERE ranking_id = ?`. -/
def sqlMaxRank : List Int → Int
  | [] => 0
  | x :: xs => xs.foldl max x

/-- The temporary offset of `updateItemRanks`: `COALESCE(MAX(rank), 0) + 1000`
read through JavaScript `maxRankResult?.max_rank || 1000`. -/
def rankOffset (db : DB) (rid : Nat) : Int :=
  let m := sqlMaxRank ((db.itemsOf rid).map (fun it => it.rank)) + 1000
  if m = 0 then 1000 else m

/-- Step 1 of `updateItemRanks`: `UPDATE item SET rank = rank + ? WHERE
ranking_id = ? AND id IN (...)` — move only the touched items to the
temporary high range. -/
def shiftTouched (rid : Nat) (keys : List Nat) (offset : Int)
    (items : List ItemRow) : List ItemRow :=
  items.map (fun it =>
    if it.ranking_id = rid ∧ it.id ∈ keys then { it with rank := it.rank + offset } else it)

/-- One iteration of step 2 of `updateItemRanks`: `UPDATE item SET rank = ?
WHERE id = ? AND ranking_id = ?`. -/
def setRank (rid : Nat) (p : Nat × Int) (items : List ItemRow) : List ItemRow :=
  items.map (fun it =>
    if it.id = p.1 ∧ it.ranking_id = rid then { it with rank := p.2 } else it)

/-- `RankingService.updateItemRanks` (rankingService.ts lines 289-334): inside
one transaction, do nothing when the mapping is empty; otherwise shift the
touched items by the high offset and then assign each its target rank, one
statement per mapping entry, in entry order. Afterwards enqueue one ranking
update when the effective owner is authenticated. The `itemRanks` record is
modelled as an association list with (unique) item-id keys. -/
def updateItemRanks (db : DB) (rankingId : Nat) (itemRanks : List (Nat × Int))
    (userId : Option String) : DB :=
  let ranking := db.rankings.find? (fun r => r.id = rankingId)
  let keys := itemRanks.map Prod.fst
  let db1 :=
    if itemRanks.length = 0 then db
    else
      let offset := rankOffset db rankingId
      let items1 := shiftTouched rankingId keys offset db.items
      let items2 := itemRanks.foldl (fun acc p => setRank rankingId p acc) items1
      { db with items := items2 }
  match authUser (jsOrOpt userId (ranking.map (fun r => r.user_id))) with
  | some u =>
    SyncQueue.enqueue db1 u SyncOp.update EntityKind.ranking (some rankingId) none none
  | none => db1

end RankingService

namespace SyncService

/-- `SyncService.migrateAnonymousData` (syncService.ts lines 144-174): read the
anonymous ranking ids, reassign every anonymous ranking and item to the new
owner in one transaction, then enqueue one ranking create per migrated
ranking. -/
def migrateAnonymousData (db : DB) (newUserId : String) : DB :=
  let anonymousRankings := (db.rankings.filter (fun r => r.user_id = "anonymous")).map
    (fun r => r.id)
  let db1 :=
    { db with
      rankings := db.rankings.map (fun r =>
        if r.user_id = "anonymous" then { r with user_id := newUserId } else r),
      items := db.items.map (fun it =>
        if it.user_id = "anonymous" then { it with user_id := newUserId } else it) }
  anonymousRankings.foldl (fun d rid =>
    SyncQueue.enqueue d newUserId SyncOp.create EntityKind.ranking (some rid) none none) db1

end SyncService

/-- `handleUserLogin` (AuthContext.tsx lines 76-123): when anonymous rankings
exist, migrate them and return (no remote download); otherwise, when the owner
has no local rankings, download the remote data if the backend has any; else do
nothing. The remote reachability check and the download are opaque parameters
(`hasRemoteData`, `download`) since they only touch the network path. -/
def handleUserLogin (hasRemoteData : Bool) (download : DB → DB)
    (db : DB) (userId : String) : DB :=
  let localCount := (db.rankings.filter (fun r => r.user_id = userId)).length
  let anonCount := (db.rankings.filter (fun r => r.user_id = "anonymous")).length
  if anonCount > 0 then SyncService.migrateAnonymousData db userId
  else if localCount = 0 then
    if hasRemoteData then download db else db
  else db

/-- Whitespace test used to model the JavaScript `\s` class and `trim()`. -/
def isWs (c : Char) : Bool := c.isWhitespace

/-- JavaScript `String.prototype.trim` on a character list. -/
def trimChars (l : List Char) : List Char :=
  ((l.dropWhile isWs).reverse.dropWhile isWs).reverse

/-- The replacement `line.replace(/^\d+\.?\s*(...)/, '')` of `parseLine`:
strip a leading run of digits, an optional dot, and following whitespace. -/
def stripLeadingNumber (l : List Char) : List Char :=
  match l with
  | [] => []
  | c :: _ =>
    if c.isDigit then
      let rest := l.dropWhile Char.isDigit
      let rest2 := match rest with
        | '.' :: r => r
        | _ => rest
      rest2.dropWhile isWs
    else l

/-- The bullet replacement of `parseLine`: strip one leading bullet character
and following whitespace. -/
def stripBullet (l : List Char) : List Char :=
  match l with
  | [] => []
  | c :: r =>
    if c = '•' ∨ c = '-' ∨ c = '*' then r.dropWhile isWs else l

/-- Backtracking search equivalent to matching `^(.+?)\s*\((.+?)\)$`: try ever
longer non-empty name prefixes; for each, skip the whitespace run, require an
opening parenthesis, and require the remainder to be a non-empty notes body
closed by the final character `)`. Returns the raw name and notes groups. -/
def notesSplitAux : List Char → List Char → Option (List Char × List Char)
  | _, [] => none
  | name, c :: rest =>
    let name1 := name ++ [c]
    match rest.dropWhile isWs with
    | '(' :: tail =>
      if tail.getLast? = some ')' ∧ 2 ≤ tail.length then
        some (name1, tail.dropLast)
      else notesSplitAux name1 rest
    | _ => notesSplitAux name1 rest

/-- `parseLine` (parseRankingListInput.ts lines 17-34): strip number and bullet
markers, trim, then extract a trailing parenthesised suffix as notes. -/
def parseLine (l : List Char) : ParsedItem :=
  let cleaned := trimChars (stripBullet (stripLeadingNumber l))
  match notesSplitAux [] cleaned with
  | some (n, notes) =>
    { name := String.mk (trimChars n), notes := some (String.mk (trimChars notes)) }
  | none => { name := String.mk cleaned, notes := none }

/-- `parseRankingListInput` (parseRankingListInput.ts lines 6-15): empty or
blank input yields no items; otherwise split on newlines, trim each line, drop
blank lines, and parse each remaining line. -/
def parseRankingListInput (text : String) : List ParsedItem :=
  if trimChars text.toList = [] then []
  else
    let lines := ((text.toList.splitOn '\n').map trimChars).filter
      (fun l => 0 < l.length)
    lines.map parseLine

/-- Specification helper describing the item rows produced by
`RankingService.insertItemsAux`: one row per parsed item, ids and ranks
counting up from the given start values. -/
def buildRows (rid : Nat) (u : String) : List ParsedItem → Int → Nat → List ItemRow
  | [], _, _ => []
  | p :: rest, rank, nid =>
    { id := nid, ranking_id := rid, user_id := u, name := p.name,
      notes := jsOrStr p.notes, rank := rank, supabase_id := none, synced := false } ::
      buildRows rid u rest (rank + 1) (nid + 1)

/-- Number of items of ranking `rid` holding rank `k`. -/
def rankCount (db : DB) (rid : Nat) (k : Int) : Nat :=
  (db.itemsOf rid).countP (fun it => it.rank = k)

/-- The spec's rank-contiguity invariant: within one ranking, the multiset of
ranks is exactly 1..N where N is the ranking's item count (each rank in that
range occurs once, every other value not at all). -/
def ranksContiguous (db : DB) (rid : Nat) : Prop :=
  ∀ k : Int, rankCount db rid k =
    if 1 ≤ k ∧ k ≤ ((db.itemsOf rid).length : Int) then 1 else 0

section HelperLemmas

theorem enqueue_items (db : DB) (u : String) (op : SyncOp) (ek : EntityKind)
    (ei : Option Nat) (si : Option String) (p : Option String) :
    (SyncQueue.enqueue db u op ek ei si p).items = db.items := by
  unfold SyncQueue.enqueue; split <;> rfl

theorem enqueue_rankings (db : DB) (u : String) (op : SyncOp) (ek : EntityKind)
    (ei : Option Nat) (si : Option String) (p : Option String) :
    (SyncQueue.enqueue db u op ek ei si p).rankings = db.rankings := by
  unfold SyncQueue.enqueue; split <;> rfl

theorem enqueue_anonymous (db : DB) (op : SyncOp) (ek : EntityKind)
    (ei : Option Nat) (si : Option String) (p : Option String) :
    SyncQueue.enqueue db "anonymous" op ek ei si p = db := by
  unfold SyncQueue.enqueue; simp

theorem insertItemsAux_queue (rid : Nat) (u : String) :
    ∀ (l : List ParsedItem) (r : Int) (db : DB),
      ((RankingService.insertItemsAux rid u l r db).1).queue = db.queue := by
  intro l
  induction l with
  | nil => intro r db; rfl
  | cons p rest ih =>
    intro r db
    simp only [RankingService.insertItemsAux]
    exact ih (r + 1) _

theorem insertItemsAux_rankings (rid : Nat) (u : String) :
    ∀ (l : List ParsedItem) (r : Int) (db : DB),
      ((RankingService.insertItemsAux rid u l r db).1).rankings = db.rankings := by
  intro l
  induction l with
  | nil => intro r db; rfl
  | cons p rest ih =>
    intro r db
    simp only [RankingService.insertItemsAux]
    exact ih (r + 1) _

end HelperLemmas

/-- Claim C4, counterexample: `addItem` does not append at rank = item count
plus one; called on a ranking with zero items but with `data.rank = 5`, the
inserted item carries rank 5, not 1. -/
theorem C4_counterexample :
    ((RankingService.addItem
        ⟨[⟨1, "anonymous", "t", none, none, false⟩], [], [], 2, 1, 1⟩
        1 ⟨"A", none, 5⟩ none).2).rank ≠
      (((⟨[⟨1, "anonymous", "t", none, none, false⟩], [], [], 2, 1, 1⟩ : DB).itemsOf
          1).length : Int) + 1 := by
  decide

/-- Claim C4 (amended): `addItem` inserts the new item with exactly the rank
supplied by the caller in `data.rank` — the rank = count + 1 policy lives in
the UI caller, not in the Record Service. The new row is appended to the item
table, every prior row is untouched. -/
theorem C4_addItem_uses_caller_rank (db : DB) (rid : Nat) (data : AddItemData)
    (u : Option String) :
    ((RankingService.addItem db rid data u).2).rank = data.rank ∧
    ((RankingService.addItem db rid data u).1).items =
      db.items ++
        [{ id := db.nextItemId, ranking_id := rid,
           user_id := RankingService.addItemEff db rid u, name := data.name,
           notes := jsOrStr data.notes, rank := data.rank,
           supabase_id := none, synced := false }] := by
  refine ⟨rfl, ?_⟩
  show (if RankingService.addItemEff db rid u ≠ "anonymous" then _ else _ : DB).items = _
  split
  · rw [enqueue_items]
  · rfl

/-- Claim C5, counterexample: `createRanking` called with an empty title does
not fail and does mutate the store — a ranking row is inserted. -/
theorem C5_counterexample :
    ((RankingService.createRanking ⟨[], [], [], 1, 1, 1⟩ ⟨"", "", none⟩
        "anonymous").1).rankings ≠ [] := by
  decide

/-- Claim C5 (amended): `createRanking` performs no title validation — with an
empty title it still inserts the ranking row (carrying the empty title) and
completes normally; empty-title rejection happens in the UI form before the
Record Service is reached. -/
theorem C5_createRanking_accepts_empty_title (db : DB) (desc : String)
    (imported : Option (List ParsedItem)) (u : String) :
    ((RankingService.createRanking db ⟨"", desc, imported⟩ u).1).rankings =
      db.rankings ++
        [{ id := db.nextRankingId, user_id := u, title := "",
           description := jsStrOrNull desc, supabase_id := none, synced := false }] := by
  show (if u ≠ "anonymous" then _ else _ : DB).rankings = _
  split
  · rw [enqueue_rankings]
    rcases imported with _ | l
    · rfl
    · show ((if l.length > 0 then _ else _ : DB × List RankingItem).1).rankings = _
      split
      · rw [insertItemsAux_rankings]
      · rfl
  · rcases imported with _ | l
    · rfl
    · show ((if l.length > 0 then _ else _ : DB × List RankingItem).1).rankings = _
      split
      · rw [insertItemsAux_rankings]
      · rfl

/-- Claim C9: importing the lines Alpha, Beta (great), Gamma creates a ranking
whose items are Alpha, Beta, Gamma at ranks 1, 2, 3, with the parenthesised
suffix parsed into Beta's notes, both in the returned ranking and in the
stored item table. -/
theorem C9_import_scenario :
    parseRankingListInput "Alpha\nBeta (great)\nGamma" =
      [⟨"Alpha", none⟩, ⟨"Beta", some "great"⟩, ⟨"Gamma", none⟩] ∧
    (RankingService.createRanking ⟨[], [], [], 1, 1, 1⟩
        ⟨"Movies", "", some (parseRankingListInput "Alpha\nBeta (great)\nGamma")⟩
        "anonymous").2.items.map (fun it => (it.name, it.notes, it.rank)) =
      [("Alpha", none, 1), ("Beta", some "great", 2), ("Gamma", none, 3)] ∧
    (((RankingService.createRanking ⟨[], [], [], 1, 1, 1⟩
        ⟨"Movies", "", some (parseRankingListInput "Alpha\nBeta (great)\nGamma")⟩
        "anonymous").1).itemsOf 1).map (fun it => (it.name, it.notes, it.rank)) =
      [("Alpha", none, 1), ("Beta", some "great", 2), ("Gamma", none, 3)] := by
  refine ⟨by decide, by decide, by decide⟩

theorem updateItem_ok_items (db : DB) (i : Nat) (upd : ItemUpdates)
    (u : Option String) (db' : DB)
    (h : RankingService.updateItem db i upd u = Except.ok db') :
    db'.items = db.items.map (fun it =>
      if it.id = i then
        { it with name := upd.name.getD "", notes := jsOrStr upd.notes }
      else it) := by
  simp only [RankingService.updateItem] at h
  split at h <;> simp only [Except.ok.injEq] at h <;> subst h
  · exact enqueue_items ..
  · rfl

theorem updateRanking_ok_rankings (db : DB) (i : Nat) (upd : RankingUpdates)
    (u : Option String) (db' : DB)
    (h : RankingService.updateRanking db i upd u = Except.ok db') :
    db'.rankings = db.rankings.map (fun r =>
      if r.id = i then
        { r with title := upd.title.getD "", description := jsOrStr upd.description }
      else r) := by
  simp only [RankingService.updateRanking] at h
  split at h <;> simp only [Except.ok.injEq] at h <;> subst h
  · exact enqueue_rankings ..
  · rfl

theorem updateRanking_ok_items (db : DB) (i : Nat) (upd : RankingUpdates)
    (u : Option String) (db' : DB)
    (h : RankingService.updateRanking db i upd u = Except.ok db') :
    db'.items = db.items := by
  simp only [RankingService.updateRanking] at h
  split at h <;> simp only [Except.ok.injEq] at h <;> subst h
  · exact enqueue_items ..
  · rfl

theorem updateItem_ok_rankings (db : DB) (i : Nat) (upd : ItemUpdates)
    (u : Option String) (db' : DB)
    (h : RankingService.updateItem db i upd u = Except.ok db') :
    db'.rankings = db.rankings := by
  simp only [RankingService.updateItem] at h
  split at h <;> simp only [Except.ok.injEq] at h <;> subst h
  · exact enqueue_rankings ..
  · rfl

/-- Claim C10: `updateRanking` and `updateItem` overwrite both optional columns
unconditionally. A field absent from the update object is written to its
default — empty string for title and name, NULL for description and notes —
while every other column of the row (in particular an item's rank and
ranking_id, preserved by the record update) stays unchanged. -/
theorem C10_absent_fields_overwritten :
    (∀ (db : DB) (i : Nat) (nv : String) (u : Option String) (it : ItemRow) (db' : DB),
        it ∈ db.items → it.id = i →
        RankingService.updateItem db i ⟨none, some nv⟩ u = Except.ok db' →
        { it with name := "", notes := jsOrStr (some nv) } ∈ db'.items) ∧
    (∀ (db : DB) (i : Nat) (dv : String) (u : Option String) (r : RankingRow) (db' : DB),
        r ∈ db.rankings → r.id = i →
        RankingService.updateRanking db i ⟨none, some dv⟩ u = Except.ok db' →
        { r with title := "", description := jsOrStr (some dv) } ∈ db'.rankings) ∧
    (∀ (db : DB) (i : Nat) (tv : String) (u : Option String) (r : RankingRow) (db' : DB),
        r ∈ db.rankings → r.id = i →
        RankingService.updateRanking db i ⟨some tv, none⟩ u = Except.ok db' →
        { r with title := tv, description := none } ∈ db'.rankings) := by
  refine ⟨?_, ?_, ?_⟩
  · intro db i nv u it db' hmem hid heq
    rw [updateItem_ok_items db i _ u db' heq]
    refine List.mem_map.mpr ⟨it, hmem, ?_⟩
    simp [hid]
  · intro db i dv u r db' hmem hid heq
    rw [updateRanking_ok_rankings db i _ u db' heq]
    refine List.mem_map.mpr ⟨r, hmem, ?_⟩
    simp [hid]
  · intro db i tv u r db' hmem hid heq
    rw [updateRanking_ok_rankings db i _ u db' heq]
    refine List.mem_map.mpr ⟨r, hmem, ?_⟩
    simp [hid, jsOrStr]

/-- Witness for C10 at concrete inputs: a one-item store, updated with the
name field absent; the stored row ends with an empty name, the new notes, and
its old rank and ranking id. -/
theorem C10_absent_fields_overwritten_witness :
    ({ id := 1, ranking_id := 1, user_id := "anonymous", name := "", notes := some "n",
       rank := (3 : Int), supabase_id := none, synced := false } : ItemRow) ∈
      (⟨[⟨1, "anonymous", "t", none, none, false⟩],
        [⟨1, 1, "anonymous", "", some "n", 3, none, false⟩], [], 2, 2, 1⟩ : DB).items := by
  have h := C10_absent_fields_overwritten.1
    ⟨[⟨1, "anonymous", "t", none, none, false⟩],
     [⟨1, 1, "anonymous", "old", none, 3, none, false⟩], [], 2, 2, 1⟩
    1 "n" none ⟨1, 1, "anonymous", "old", none, 3, none, false⟩
    ⟨[⟨1, "anonymous", "t", none, none, false⟩],
     [⟨1, 1, "anonymous", "", some "n", 3, none, false⟩], [], 2, 2, 1⟩
    (by decide) (by decide) (by rfl)
  exact h

/-- Claim C6, counterexample: `updateRanking` on an id that does not exist in
the store completes with success and leaves the store unchanged — it does not
signal a NotFoundError, contradicting the claim for this operation. -/
theorem C6_counterexample :
    RankingService.updateRanking ⟨[], [], [], 1, 1, 1⟩ 1 ⟨none, none⟩ none =
      Except.ok (⟨[], [], [], 1, 1, 1⟩ : DB) ∧
    ∀ e, RankingService.updateRanking ⟨[], [], [], 1, 1, 1⟩ 1 ⟨none, none⟩ none ≠
      Except.error e := by
  refine ⟨rfl, ?_⟩
  intro e h
  rw [show RankingService.updateRanking ⟨[], [], [], 1, 1, 1⟩ 1 ⟨none, none⟩ none =
      Except.ok (⟨[], [], [], 1, 1, 1⟩ : DB) from rfl] at h
  exact Except.noConfusion h

/-- Claim C6 (amended): only `deleteItem` signals a not-found error on a
missing target. `updateRanking`, `updateItem` and `deleteRanking` on a
nonexistent id complete without error, leaving the ranking and item tables
unchanged; when no userId is passed, `updateRanking` and `updateItem` leave the
whole store untouched (with an explicit authenticated userId they still
enqueue a sync entry), and `deleteRanking` is the identity. -/
theorem C6_not_found_behaviour :
    (∀ (db : DB) (i : Nat), (∀ it ∈ db.items, it.id ≠ i) →
        RankingService.deleteItem db i = Except.error "Item not found") ∧
    (∀ (db : DB) (i : Nat) (upd : RankingUpdates) (u : Option String),
        (∀ r ∈ db.rankings, r.id ≠ i) →
        ∃ db', RankingService.updateRanking db i upd u = Except.ok db' ∧
          db'.rankings = db.rankings ∧ db'.items = db.items ∧
          (u = none → db' = db)) ∧
    (∀ (db : DB) (i : Nat) (upd : ItemUpdates) (u : Option String),
        (∀ it ∈ db.items, it.id ≠ i) →
        ∃ db', RankingService.updateItem db i upd u = Except.ok db' ∧
          db'.items = db.items ∧ db'.rankings = db.rankings ∧
          (u = none → db' = db)) ∧
    (∀ (db : DB) (i : Nat),
        (∀ r ∈ db.rankings, r.id ≠ i) → (∀ it ∈ db.items, it.ranking_id ≠ i) →
        RankingService.deleteRanking db i = Except.ok db) := by
  refine ⟨?_, ?_, ?_, ?_⟩
  · intro db i h
    have hfind : db.items.find? (fun it => it.id = i) = none := by
      simp only [List.find?_eq_none, decide_eq_true_eq]
      exact h
    simp only [RankingService.deleteItem, hfind]
  · intro db i upd u h
    have hfind : db.rankings.find? (fun r => r.id = i) = none := by
      simp only [List.find?_eq_none, decide_eq_true_eq]
      exact h
    have hmap : db.rankings.map (fun r =>
        if r.id = i then
          { r with title := upd.title.getD "", description := jsOrStr upd.description }
        else r) = db.rankings := by
      refine (List.map_congr_left ?_).trans (List.map_id _)
      intro r hr
      simp [h r hr]
    simp only [RankingService.updateRanking, hfind, Option.map_none']
    rcases hA : authUser (jsOrOpt u none) with _ | u'
    · refine ⟨db, ?_, rfl, rfl, fun _ => rfl⟩
      rw [hmap]
    · exact ⟨_, rfl, by rw [enqueue_rankings, hmap], by rw [enqueue_items],
        by intro hu; subst hu; simp [jsOrOpt, authUser] at hA⟩
  · intro db i upd u h
    have hfind : db.items.find? (fun it => it.id = i) = none := by
      simp only [List.find?_eq_none, decide_eq_true_eq]
      exact h
    have hmap : db.items.map (fun it =>
        if it.id = i then
          { it with name := upd.name.getD "", notes := jsOrStr upd.notes }
        else it) = db.items := by
      refine (List.map_congr_left ?_).trans (List.map_id _)
      intro it hit
      simp [h it hit]
    simp only [RankingService.updateItem, hfind, Option.map_none']
    rcases hA : authUser (jsOrOpt u none) with _ | u'
    · refine ⟨db, ?_, rfl, rfl, fun _ => rfl⟩
      rw [hmap]
    · exact ⟨_, rfl, by rw [enqueue_items, hmap], by rw [enqueue_rankings],
        by intro hu; subst hu; simp [jsOrOpt, authUser] at hA⟩
  · intro db i hr hit
    have hfind : db.rankings.find? (fun r => r.id = i) = none := by
      simp only [List.find?_eq_none, decide_eq_true_eq]
      exact hr
    have h1 : db.rankings.filter (fun r => r.id ≠ i) = db.rankings := by
      rw [List.filter_eq_self]
      intro r hmem
      simpa using hr r hmem
    have h2 : db.items.filter (fun it => it.ranking_id ≠ i) = db.items := by
      rw [List.filter_eq_self]
      intro it hmem
      simpa using hit it hmem
    simp only [RankingService.deleteRanking, hfind, h1, h2]

/-- Witness for C6 at concrete inputs: a store holding one ranking and one
item, with every operation targeting the absent id 9. -/
theorem C6_not_found_behaviour_witness :
    RankingService.deleteItem
      ⟨[⟨1, "u", "t", none, none, false⟩],
       [⟨1, 1, "u", "a", none, 1, none, false⟩], [], 2, 2, 1⟩ 9 =
      Except.error "Item not found" ∧
    (∃ db', RankingService.updateRanking
        ⟨[⟨1, "u", "t", none, none, false⟩],
         [⟨1, 1, "u", "a", none, 1, none, false⟩], [], 2, 2, 1⟩ 9 ⟨none, none⟩ none =
        Except.ok db' ∧
        db'.rankings = [⟨1, "u", "t", none, none, false⟩] ∧
        db'.items = [⟨1, 1, "u", "a", none, 1, none, false⟩] ∧
        (none = (none : Option String) → db' =
          ⟨[⟨1, "u", "t", none, none, false⟩],
           [⟨1, 1, "u", "a", none, 1, none, false⟩], [], 2, 2, 1⟩)) ∧
    RankingService.deleteRanking
      ⟨[⟨1, "u", "t", none, none, false⟩],
       [⟨1, 1, "u", "a", none, 1, none, false⟩], [], 2, 2, 1⟩ 9 =
      Except.ok (⟨[⟨1, "u", "t", none, none, false⟩],
       [⟨1, 1, "u", "a", none, 1, none, false⟩], [], 2, 2, 1⟩ : DB) := by
  refine ⟨?_, ?_, ?_⟩
  · exact C6_not_found_behaviour.1
      ⟨[⟨1, "u", "t", none, none, false⟩],
       [⟨1, 1, "u", "a", none, 1, none, false⟩], [], 2, 2, 1⟩ 9 (by decide)
  · exact C6_not_found_behaviour.2.1
      ⟨[⟨1, "u", "t", none, none, false⟩],
       [⟨1, 1, "u", "a", none, 1, none, false⟩], [], 2, 2, 1⟩ 9 ⟨none, none⟩ none (by decide)
  · exact C6_not_found_behaviour.2.2.2
      ⟨[⟨1, "u", "t", none, none, false⟩],
       [⟨1, 1, "u", "a", none, 1, none, false⟩], [], 2, 2, 1⟩ 9 (by decide) (by decide)

theorem authUser_anonymous (b : Option String) :
    authUser (jsOrOpt (some "anonymous") b) = none := by
  simp [jsOrOpt, authUser]

/-- Claim C8: the anonymous owner never touches the outbox. `enqueue` with the
anonymous owner is the identity, and every mutating Record Service call made on
behalf of the anonymous owner — whether the caller passes the anonymous id or
the operation reads it from the target row — leaves the sync queue unchanged. -/
theorem C8_anonymous_never_enqueues :
    (∀ (db : DB) (op : SyncOp) (ek : EntityKind) (ei : Option Nat)
        (si : Option String) (p : Option String),
        SyncQueue.enqueue db "anonymous" op ek ei si p = db) ∧
    (∀ (db : DB) (data : RankingFormData),
        ((RankingService.createRanking db data "anonymous").1).queue = db.queue) ∧
    (∀ (db : DB) (rid : Nat) (d : AddItemData),
        ((RankingService.addItem db rid d (some "anonymous")).1).queue = db.queue) ∧
    (∀ (db : DB) (i : Nat) (upd : RankingUpdates) (db' : DB),
        RankingService.updateRanking db i upd (some "anonymous") = Except.ok db' →
        db'.queue = db.queue) ∧
    (∀ (db : DB) (i : Nat) (upd : ItemUpdates) (db' : DB),
        RankingService.updateItem db i upd (some "anonymous") = Except.ok db' →
        db'.queue = db.queue) ∧
    (∀ (db : DB) (rid : Nat) (pairs : List (Nat × Int)),
        (RankingService.updateItemRanks db rid pairs (some "anonymous")).queue = db.queue) ∧
    (∀ (db : DB) (i : Nat) (db' : DB),
        RankingService.deleteItem db i = Except.ok db' →
        (∀ it ∈ db.items, it.id = i → it.user_id = "anonymous") →
        db'.queue = db.queue) ∧
    (∀ (db : DB) (i : Nat) (db' : DB),
        RankingService.deleteRanking db i = Except.ok db' →
        (∀ r ∈ db.rankings, r.id = i → r.user_id = "anonymous") →
        db'.queue = db.queue) := by
  refine ⟨?_, ?_, ?_, ?_, ?_, ?_, ?_, ?_⟩
  · intro db op ek ei si p
    exact enqueue_anonymous db op ek ei si p
  · intro db data
    simp only [RankingService.createRanking]
    rw [if_neg (by simp)]
    rcases hI : data.importedItems with _ | l
    · rfl
    · dsimp only
      split
      · rw [insertItemsAux_queue]
      · rfl
  · intro db rid d
    have he : RankingService.addItemEff db rid (some "anonymous") = "anonymous" := by
      simp [RankingService.addItemEff, jsOrOpt]
    simp only [RankingService.addItem, he, ne_eq, not_true_eq_false, if_false, ite_false]
  · intro db i upd db' h
    simp only [RankingService.updateRanking, authUser_anonymous,
      Except.ok.injEq] at h
    subst h
    rfl
  · intro db i upd db' h
    simp only [RankingService.updateItem, authUser_anonymous,
      Except.ok.injEq] at h
    subst h
    rfl
  · intro db rid pairs
    simp only [RankingService.updateItemRanks, authUser_anonymous]
    split <;> rfl
  · intro db i db' h hanon
    rcases hf : db.items.find? (fun it => it.id = i) with _ | item
    · simp only [RankingService.deleteItem, hf] at h
      exact Except.noConfusion h
    · have hid : item.id = i := by
        have := List.find?_some hf
        simpa using this
      have hmem := List.mem_of_find?_eq_some hf
      have huser := hanon item hmem hid
      simp only [RankingService.deleteItem, hf] at h
      rw [if_neg (by
        intro hc
        exact hc.2.2 huser)] at h
      simp only [Except.ok.injEq] at h
      subst h
      rfl
  · intro db i db' h hanon
    rcases hf : db.rankings.find? (fun r => r.id = i) with _ | r
    · simp only [RankingService.deleteRanking, hf, Except.ok.injEq] at h
      subst h
      rfl
    · have hid : r.id = i := by
        have := List.find?_some hf
        simpa using this
      have hmem := List.mem_of_find?_eq_some hf
      have huser := hanon r hmem hid
      simp only [RankingService.deleteRanking, hf] at h
      rw [if_neg (by
        intro hc
        exact hc.2 huser)] at h
      simp only [Except.ok.injEq] at h
      subst h
      rfl

/-- Witness for C8 at concrete inputs: one anonymous-owned ranking with one
anonymous-owned item; deleting the item and the ranking leaves the (empty)
outbox empty. -/
theorem C8_anonymous_never_enqueues_witness :
    (∃ db', RankingService.deleteItem
        ⟨[⟨1, "anonymous", "t", none, none, false⟩],
         [⟨1, 1, "anonymous", "a", none, 1, none, false⟩], [], 2, 2, 1⟩ 1 =
        Except.ok db' ∧ db'.queue = []) ∧
    (∃ db', RankingService.deleteRanking
        ⟨[⟨1, "anonymous", "t", none, none, false⟩],
         [⟨1, 1, "anonymous", "a", none, 1, none, false⟩], [], 2, 2, 1⟩ 1 =
        Except.ok db' ∧ db'.queue = []) ∧
    (∃ db', RankingService.updateRanking
        ⟨[⟨1, "anonymous", "t", none, none, false⟩],
         [⟨1, 1, "anonymous", "a", none, 1, none, false⟩], [], 2, 2, 1⟩ 1
        ⟨some "t2", none⟩ (some "anonymous") = Except.ok db' ∧ db'.queue = []) := by
  refine ⟨?_, ?_, ?_⟩
  · refine ⟨⟨[⟨1, "anonymous", "t", none, none, false⟩], [], [], 2, 2, 1⟩, rfl, ?_⟩
    exact C8_anonymous_never_enqueues.2.2.2.2.2.2.1
      ⟨[⟨1, "anonymous", "t", none, none, false⟩],
       [⟨1, 1, "anonymous", "a", none, 1, none, false⟩], [], 2, 2, 1⟩ 1
      ⟨[⟨1, "anonymous", "t", none, none, false⟩], [], [], 2, 2, 1⟩ rfl (by decide)
  · refine ⟨⟨[], [], [], 2, 2, 1⟩, rfl, ?_⟩
    exact C8_anonymous_never_enqueues.2.2.2.2.2.2.2
      ⟨[⟨1, "anonymous", "t", none, none, false⟩],
       [⟨1, 1, "anonymous", "a", none, 1, none, false⟩], [], 2, 2, 1⟩ 1
      ⟨[], [], [], 2, 2, 1⟩ rfl (by decide)
  · refine ⟨⟨[⟨1, "anonymous", "t2", none, none, false⟩],
      [⟨1, 1, "anonymous", "a", none, 1, none, false⟩], [], 2, 2, 1⟩, rfl, ?_⟩
    exact C8_anonymous_never_enqueues.2.2.2.1
      ⟨[⟨1, "anonymous", "t", none, none, false⟩],
       [⟨1, 1, "anonymous", "a", none, 1, none, false⟩], [], 2, 2, 1⟩ 1
      ⟨some "t2", none⟩
      ⟨[⟨1, "anonymous", "t2", none, none, false⟩],
       [⟨1, 1, "anonymous", "a", none, 1, none, false⟩], [], 2, 2, 1⟩ rfl

theorem drainGo_append (procOp : DB → QueueRow → DB × Option String)
    (l1 l2 : List QueueRow) :
    ∀ db : DB, SyncQueue.drainGo procOp (l1 ++ l2) db =
      match SyncQueue.drainGo procOp l1 db with
      | (d, none) => SyncQueue.drainGo procOp l2 d
      | (d, some e) => (d, some e) := by
  induction l1 with
  | nil => intro db; rfl
  | cons op rest ih =>
    intro db
    simp only [List.cons_append, SyncQueue.drainGo]
    rcases procOp db op with ⟨d1, _ | e⟩
    · exact ih (SyncQueue.deleteQueueRow d1 op.id)
    · rfl

theorem drainGo_none_queue (procOp : DB → QueueRow → DB × Option String)
    (hq : ∀ d op, ((procOp d op).1).queue = d.queue) :
    ∀ (ops : List QueueRow) (db d' : DB),
      SyncQueue.drainGo procOp ops db = (d', none) →
      d'.queue = db.queue.filter (fun r => r.id ∉ ops.map (fun o => o.id)) := by
  intro ops
  induction ops with
  | nil =>
    intro db d' h
    simp only [SyncQueue.drainGo, Prod.mk.injEq] at h
    rw [← h.1]
    simp
  | cons op rest ih =>
    intro db d' h
    simp only [SyncQueue.drainGo] at h
    rcases hpo : procOp db op with ⟨d1, _ | e⟩
    · rw [hpo] at h
      have hd1 : d1.queue = db.queue := by
        have := hq db op
        rw [hpo] at this
        exact this
      have := ih (SyncQueue.deleteQueueRow d1 op.id) d' h
      rw [this]
      show (d1.queue.filter _).filter _ = _
      rw [hd1, List.filter_filter]
      refine List.filter_congr ?_
      intro r _
      simp only [List.map_cons, List.mem_cons, not_or, Bool.and_eq_true, decide_eq_true_eq,
        Bool.decide_and, ne_eq]
      rw [Bool.and_comm]
    · rw [hpo] at h
      cases h

/-- Claim C2: `processQueue` drains an owner's outbox entries in ascending id
order; an entry's queue row is removed only after its remote effect succeeded,
and on the first entry whose resolution fails the drain stops and surfaces the
error, leaving the failed entry and every later entry in the queue in their
original order. Stated for an arbitrary split pre / failing entry / post of
the owner's queue and an arbitrary queue-preserving `processOperation`. -/
theorem C2_drain_stops_on_first_failure
    (procOp : DB → QueueRow → DB × Option String) (db : DB) (u : String)
    (pre : List QueueRow) (f : QueueRow) (post : List QueueRow)
    (db1 dbf : DB) (err : String)
    (hq : ∀ d op, ((procOp d op).1).queue = d.queue)
    (hsorted : List.Sorted (fun a b : QueueRow => a.id ≤ b.id)
      (db.queue.filter (fun q => q.user_id = u)))
    (hops : db.queue.filter (fun q => q.user_id = u) = pre ++ f :: post)
    (hnodup : (db.queue.map (fun q => q.id)).Nodup)
    (hpre : SyncQueue.drainGo procOp pre db = (db1, none))
    (hf : procOp db1 f = (dbf, some err)) :
    SyncQueue.processQueue procOp db u = (dbf, some err) ∧
    dbf.queue = db.queue.filter (fun r => r.id ∉ pre.map (fun o => o.id)) ∧
    dbf.queue.filter (fun q => q.user_id = u) = f :: post := by
  have hqueue : dbf.queue = db.queue.filter (fun r => r.id ∉ pre.map (fun o => o.id)) := by
    have hd1 : dbf.queue = db1.queue := by
      have := hq db1 f
      rw [hf] at this
      exact this
    rw [hd1]
    exact drainGo_none_queue procOp hq pre db db1 hpre
  refine ⟨?_, hqueue, ?_⟩
  · unfold SyncQueue.processQueue
    rw [hsorted.insertionSort_eq, hops, drainGo_append, hpre]
    simp only [SyncQueue.drainGo]
    rw [hf]
  · have hsubnodup : ((db.queue.filter (fun q => q.user_id = u)).map
        (fun q => q.id)).Nodup := by
      refine List.Nodup.sublist (List.Sublist.map _ ?_) hnodup
      exact List.filter_sublist _
    rw [hops] at hsubnodup
    rw [List.map_append] at hsubnodup
    have hdisj := List.disjoint_of_nodup_append hsubnodup
    rw [hqueue, List.filter_comm, hops, List.filter_append]
    have h1 : pre.filter (fun r => r.id ∉ pre.map (fun o => o.id)) = [] := by
      rw [List.filter_eq_nil_iff]
      intro a ha
      simp only [decide_eq_true_eq, not_not]
      exact List.mem_map_of_mem _ ha
    have h2 : (f :: post).filter (fun r => r.id ∉ pre.map (fun o => o.id)) = f :: post := by
      rw [List.filter_eq_self]
      intro a ha
      simp only [decide_eq_true_eq]
      intro hmem
      exact hdisj hmem (List.mem_map_of_mem _ ha)
    rw [h1, h2, List.nil_append]

/-- Witness for C2: three queued entries with ids 1 < 2 < 3 for owner "u"; the
remote resolution fails exactly on entry 2. The drain removes entry 1,
surfaces the failure, and leaves entries 2 and 3 in their original order. -/
theorem C2_drain_stops_on_first_failure_witness :
    SyncQueue.processQueue
      (fun d op => if op.id = 2 then (d, some "boom") else (d, none))
      ⟨[], [], [⟨1, "u", SyncOp.create, EntityKind.ranking, some 1, none, none⟩,
                ⟨2, "u", SyncOp.update, EntityKind.item, some 1, none, none⟩,
                ⟨3, "u", SyncOp.delete, EntityKind.ranking, none, some "r", none⟩],
        1, 1, 4⟩ "u" =
      (⟨[], [], [⟨2, "u", SyncOp.update, EntityKind.item, some 1, none, none⟩,
                 ⟨3, "u", SyncOp.delete, EntityKind.ranking, none, some "r", none⟩],
        1, 1, 4⟩, some "boom") ∧
    ((⟨[], [], [⟨2, "u", SyncOp.update, EntityKind.item, some 1, none, none⟩,
                ⟨3, "u", SyncOp.delete, EntityKind.ranking, none, some "r", none⟩],
       1, 1, 4⟩ : DB)).queue.filter (fun q => q.user_id = "u") =
      [⟨2, "u", SyncOp.update, EntityKind.item, some 1, none, none⟩,
       ⟨3, "u", SyncOp.delete, EntityKind.ranking, none, some "r", none⟩] := by
  have h := C2_drain_stops_on_first_failure
    (fun d op => if op.id = 2 then (d, some "boom") else (d, none))
    ⟨[], [], [⟨1, "u", SyncOp.create, EntityKind.ranking, some 1, none, none⟩,
              ⟨2, "u", SyncOp.update, EntityKind.item, some 1, none, none⟩,
              ⟨3, "u", SyncOp.delete, EntityKind.ranking, none, some "r", none⟩],
      1, 1, 4⟩ "u"
    [⟨1, "u", SyncOp.create, EntityKind.ranking, some 1, none, none⟩]
    ⟨2, "u", SyncOp.update, EntityKind.item, some 1, none, none⟩
    [⟨3, "u", SyncOp.delete, EntityKind.ranking, none, some "r", none⟩]
    ⟨[], [], [⟨2, "u", SyncOp.update, EntityKind.item, some 1, none, none⟩,
              ⟨3, "u", SyncOp.delete, EntityKind.ranking, none, some "r", none⟩],
      1, 1, 4⟩
    ⟨[], [], [⟨2, "u", SyncOp.update, EntityKind.item, some 1, none, none⟩,
              ⟨3, "u", SyncOp.delete, EntityKind.ranking, none, some "r", none⟩],
      1, 1, 4⟩
    "boom"
    (by intro d op; dsimp only; split <;> rfl)
    (by decide) (by decide) (by decide) (by decide) (by decide)
  exact ⟨h.1, h.2.2⟩

theorem enqueue_creates_fold (u : String) (hu : u ≠ "anonymous") :
    ∀ (ids : List Nat) (db : DB),
      ∃ newEntries : List QueueRow,
        (ids.foldl (fun d rid =>
          SyncQueue.enqueue d u SyncOp.create EntityKind.ranking (some rid) none none)
          db).queue = db.queue ++ newEntries ∧
        (ids.foldl (fun d rid =>
          SyncQueue.enqueue d u SyncOp.create EntityKind.ranking (some rid) none none)
          db).rankings = db.rankings ∧
        (ids.foldl (fun d rid =>
          SyncQueue.enqueue d u SyncOp.create EntityKind.ranking (some rid) none none)
          db).items = db.items ∧
        newEntries.length = ids.length ∧
        newEntries.map (fun e => e.entity_id) = ids.map (fun i => jsOrNat (some i)) ∧
        ∀ e ∈ newEntries, e.operation = SyncOp.create ∧
          e.entity_type = EntityKind.ranking ∧ e.user_id = u := by
  intro ids
  induction ids with
  | nil =>
    intro db
    exact ⟨[], by simp, rfl, rfl, rfl, rfl, by intro e he; cases he⟩
  | cons rid rest ih =>
    intro db
    simp only [List.foldl_cons]
    have hstep : SyncQueue.enqueue db u SyncOp.create EntityKind.ranking (some rid) none none =
        { db with
          queue := db.queue ++
            [{ id := db.nextQueueId, user_id := u, operation := SyncOp.create,
               entity_type := EntityKind.ranking, entity_id := jsOrNat (some rid),
               supabase_id := jsOrStr none, payload := none }],
          nextQueueId := db.nextQueueId + 1 } := by
      unfold SyncQueue.enqueue
      rw [if_neg hu]
    rw [hstep]
    obtain ⟨entries, hq, hr, hi, hlen, hids, hkinds⟩ := ih _
    refine ⟨{ id := db.nextQueueId, user_id := u, operation := SyncOp.create,
              entity_type := EntityKind.ranking, entity_id := jsOrNat (some rid),
              supabase_id := jsOrStr none, payload := none } :: entries, ?_, hr, hi, ?_, ?_, ?_⟩
    · rw [hq]
      simp
    · simp [hlen]
    · simp [hids]
    · intro e he
      cases he with
      | head => exact ⟨rfl, rfl, rfl⟩
      | tail _ hmem => exact hkinds e hmem

/-- Claim C7: when the device holds anonymous rankings, `handleUserLogin`
migrates: it behaves exactly as `migrateAnonymousData` regardless of the
remote state or the download routine (so no remote download happens),
reassigning every anonymous ranking and item to the authenticated owner and
appending to the outbox exactly one create/ranking entry per previously
anonymous ranking, carrying that ranking's id. -/
theorem C7_login_migrates_anonymous_data (hasRemote : Bool) (download : DB → DB)
    (db : DB) (u : String) (hu : u ≠ "anonymous")
    (hanon : 0 < (db.rankings.filter (fun r => r.user_id = "anonymous")).length) :
    handleUserLogin hasRemote download db u = SyncService.migrateAnonymousData db u ∧
    (SyncService.migrateAnonymousData db u).rankings =
      db.rankings.map (fun r =>
        if r.user_id = "anonymous" then { r with user_id := u } else r) ∧
    (SyncService.migrateAnonymousData db u).items =
      db.items.map (fun it =>
        if it.user_id = "anonymous" then { it with user_id := u } else it) ∧
    ∃ newEntries : List QueueRow,
      (SyncService.migrateAnonymousData db u).queue = db.queue ++ newEntries ∧
      newEntries.length = (db.rankings.filter (fun r => r.user_id = "anonymous")).length ∧
      newEntries.map (fun e => e.entity_id) =
        ((db.rankings.filter (fun r => r.user_id = "anonymous")).map (fun r => r.id)).map
          (fun i => jsOrNat (some i)) ∧
      ∀ e ∈ newEntries, e.operation = SyncOp.create ∧
        e.entity_type = EntityKind.ranking ∧ e.user_id = u := by
  refine ⟨?_, ?_⟩
  · unfold handleUserLogin
    rw [if_pos hanon]
  · unfold SyncService.migrateAnonymousData
    obtain ⟨entries, hq, hr, hi, hlen, hids, hkinds⟩ :=
      enqueue_creates_fold u hu
        ((db.rankings.filter (fun r => r.user_id = "anonymous")).map (fun r => r.id))
        { db with
          rankings := db.rankings.map (fun r =>
            if r.user_id = "anonymous" then { r with user_id := u } else r),
          items := db.items.map (fun it =>
            if it.user_id = "anonymous" then { it with user_id := u } else it) }
    refine ⟨?_, ?_, entries, ?_, ?_, hids, hkinds⟩
    · rw [hr]
    · rw [hi]
    · rw [hq]
    · rw [hlen]
      simp

/-- Witness for C7, the spec's migration scenario: two anonymous rankings,
`handleUserLogin "user-42"`; afterwards both rankings belong to user-42 and
exactly two outbox entries exist, both of kind create / entity ranking. -/
theorem C7_login_migrates_anonymous_data_witness :
    handleUserLogin false (fun d => d)
      ⟨[⟨1, "anonymous", "A", none, none, false⟩,
        ⟨2, "anonymous", "B", none, none, false⟩], [], [], 3, 1, 1⟩ "user-42" =
      SyncService.migrateAnonymousData
        ⟨[⟨1, "anonymous", "A", none, none, false⟩,
          ⟨2, "anonymous", "B", none, none, false⟩], [], [], 3, 1, 1⟩ "user-42" ∧
    (SyncService.migrateAnonymousData
      ⟨[⟨1, "anonymous", "A", none, none, false⟩,
        ⟨2, "anonymous", "B", none, none, false⟩], [], [], 3, 1, 1⟩ "user-42").rankings =
      [⟨1, "user-42", "A", none, none, false⟩, ⟨2, "user-42", "B", none, none, false⟩] ∧
    (SyncService.migrateAnonymousData
      ⟨[⟨1, "anonymous", "A", none, none, false⟩,
        ⟨2, "anonymous", "B", none, none, false⟩], [], [], 3, 1, 1⟩ "user-42").queue.length
      = 2 ∧
    ∀ e ∈ (SyncService.migrateAnonymousData
      ⟨[⟨1, "anonymous", "A", none, none, false⟩,
        ⟨2, "anonymous", "B", none, none, false⟩], [], [], 3, 1, 1⟩ "user-42").queue,
      e.operation = SyncOp.create ∧ e.entity_type = EntityKind.ranking ∧
        e.user_id = "user-42" := by
  have h := C7_login_migrates_anonymous_data false (fun d => d)
    ⟨[⟨1, "anonymous", "A", none, none, false⟩,
      ⟨2, "anonymous", "B", none, none, false⟩], [], [], 3, 1, 1⟩ "user-42"
    (by decide) (by decide)
  exact ⟨h.1, by decide, by decide, by decide⟩

theorem lookup_eq_none_of_not_mem (k : Nat) :
    ∀ pairs : List (Nat × Int), k ∉ pairs.map Prod.fst → List.lookup k pairs = none := by
  intro pairs
  induction pairs with
  | nil => intro _; rfl
  | cons p rest ih =>
    intro h
    simp only [List.map_cons, List.mem_cons, not_or] at h
    rw [List.lookup_cons]
    have hb : (k == p.1) = false := by simpa using h.1
    rw [hb]
    exact ih h.2

theorem lookup_eq_some_of_mem_nodup :
    ∀ pairs : List (Nat × Int), (pairs.map Prod.fst).Nodup → ∀ p ∈ pairs,
      List.lookup p.1 pairs = some p.2 := by
  intro pairs
  induction pairs with
  | nil => intro _ p hp; cases hp
  | cons q rest ih =>
    intro hn p hp
    rw [List.map_cons, List.nodup_cons] at hn
    cases hp with
    | head =>
      rw [List.lookup_cons]
      have hb : (q.1 == q.1) = true := by simp
      rw [hb]
    | tail _ hmem =>
      have hne : p.1 ≠ q.1 := by
        intro hc
        exact hn.1 (hc ▸ List.mem_map_of_mem _ hmem)
      rw [List.lookup_cons]
      have hb : (p.1 == q.1) = false := by simpa using hne
      rw [hb]
      exact ih hn.2 p hmem

theorem setRank_foldl (rid : Nat) :
    ∀ (pairs : List (Nat × Int)), (pairs.map Prod.fst).Nodup →
      ∀ l : List ItemRow,
        pairs.foldl (fun acc p => RankingService.setRank rid p acc) l =
          l.map (fun it =>
            if it.ranking_id = rid then
              match List.lookup it.id pairs with
              | some t => { it with rank := t }
              | none => it
            else it) := by
  intro pairs
  induction pairs with
  | nil =>
    intro _ l
    simp only [List.foldl_nil, List.lookup_nil]
    refine ((List.map_congr_left ?_).trans (List.map_id _)).symm
    intro it _
    split <;> rfl
  | cons p rest ih =>
    obtain ⟨pk, pv⟩ := p
    intro hn l
    rw [List.map_cons, List.nodup_cons] at hn
    rw [List.foldl_cons, ih hn.2 (RankingService.setRank rid (pk, pv) l)]
    unfold RankingService.setRank
    rw [List.map_map]
    refine List.map_congr_left ?_
    intro it _
    simp only [Function.comp_apply]
    by_cases hid : it.id = pk
    · have hb : (it.id == pk) = true := by simpa using hid
      by_cases hrk : it.ranking_id = rid
      · have hlk : List.lookup pk rest = none := by
          refine lookup_eq_none_of_not_mem _ _ ?_
          simpa using hn.1
        simp [hid, hrk, List.lookup_cons, hb, hlk]
      · simp [hid, hrk, List.lookup_cons, hb]
    · have hb : (it.id == pk) = false := by simpa using hid
      simp [hid, List.lookup_cons, hb]

theorem foldl_max_le_init : ∀ (xs : List Int) (x : Int), x ≤ xs.foldl max x := by
  intro xs
  induction xs with
  | nil => intro x; exact le_refl x
  | cons y ys ih =>
    intro x
    exact le_trans (le_max_left x y) (ih (max x y))

theorem sqlMaxRank_nonneg (l : List Int) (h : ∀ x ∈ l, 0 ≤ x) :
    0 ≤ RankingService.sqlMaxRank l := by
  cases l with
  | nil => exact le_refl 0
  | cons x xs =>
    exact le_trans (h x (List.mem_cons_self x xs)) (foldl_max_le_init xs x)

theorem reorder_phases_eq (db : DB) (rid : Nat) (pairs : List (Nat × Int))
    (hk : (pairs.map Prod.fst).Nodup) :
    pairs.foldl (fun acc p => RankingService.setRank rid p acc)
      (RankingService.shiftTouched rid (pairs.map Prod.fst)
        (RankingService.rankOffset db rid) db.items) =
      db.items.map (fun it =>
        if it.ranking_id = rid then
          match List.lookup it.id pairs with
          | some t => { it with rank := t }
          | none => it
        else it) := by
  rw [setRank_foldl rid pairs hk]
  unfold RankingService.shiftTouched
  rw [List.map_map]
  refine List.map_congr_left ?_
  intro it _
  simp only [Function.comp_apply]
  by_cases hrk : it.ranking_id = rid
  · by_cases hmem : it.id ∈ pairs.map Prod.fst
    · rcases hlk : List.lookup it.id pairs with _ | t
      · exfalso
        obtain ⟨p, hp, heq⟩ := List.mem_map.mp hmem
        have hsome := lookup_eq_some_of_mem_nodup pairs hk p hp
        rw [heq, hlk] at hsome
        cases hsome
      · simp [hrk, hmem, hlk]
    · simp [hrk, hmem, lookup_eq_none_of_not_mem it.id pairs hmem]
  · simp [hrk]

theorem updateItemRanks_items_eq (db : DB) (rid : Nat) (pairs : List (Nat × Int))
    (u : Option String) (hk : (pairs.map Prod.fst).Nodup) :
    (RankingService.updateItemRanks db rid pairs u).items =
      db.items.map (fun it =>
        if it.ranking_id = rid then
          match List.lookup it.id pairs with
          | some t => { it with rank := t }
          | none => it
        else it) := by
  simp only [RankingService.updateItemRanks]
  split
  · rw [enqueue_items]
    split
    · rename_i hlen
      have hnil : pairs = [] := List.length_eq_zero.mp hlen
      subst hnil
      simp only [List.lookup_nil]
      refine ((List.map_congr_left ?_).trans (List.map_id _)).symm
      intro it _
      split <;> rfl
    · exact reorder_phases_eq db rid pairs hk
  · split
    · rename_i hlen
      have hnil : pairs = [] := List.length_eq_zero.mp hlen
      subst hnil
      simp only [List.lookup_nil]
      refine ((List.map_congr_left ?_).trans (List.map_id _)).symm
      intro it _
      split <;> rfl
    · exact reorder_phases_eq db rid pairs hk

theorem updateItemRanks_rankings (db : DB) (rid : Nat) (pairs : List (Nat × Int))
    (u : Option String) :
    (RankingService.updateItemRanks db rid pairs u).rankings = db.rankings := by
  simp only [RankingService.updateItemRanks]
  split
  · rw [enqueue_rankings]
    split <;> rfl
  · split <;> rfl

/-- Claim C3: `updateItemRanks` reorders inside one transaction by first
shifting only the touched items to the temporary range (the offset being the
ranking's current maximum rank plus 1000 whenever ranks are nonnegative) and
then assigning the targets one statement at a time; afterwards every touched
item of the ranking carries exactly its target rank, every untouched item (and
every item of other rankings) keeps its prior row, reordering the empty
mapping leaves the item table untouched, and the ranking table is never
modified. -/
theorem C3_updateItemRanks_reorder (db : DB) (rid : Nat) (pairs : List (Nat × Int))
    (u : Option String) (hk : (pairs.map Prod.fst).Nodup) :
    (RankingService.updateItemRanks db rid pairs u).rankings = db.rankings ∧
    (RankingService.updateItemRanks db rid pairs u).items =
      db.items.map (fun it =>
        if it.ranking_id = rid then
          match List.lookup it.id pairs with
          | some t => { it with rank := t }
          | none => it
        else it) ∧
    (∀ it ∈ db.items, it.ranking_id = rid → ∀ t, List.lookup it.id pairs = some t →
      { it with rank := t } ∈ (RankingService.updateItemRanks db rid pairs u).items) ∧
    (∀ it ∈ db.items, it.ranking_id ≠ rid ∨ List.lookup it.id pairs = none →
      it ∈ (RankingService.updateItemRanks db rid pairs u).items) ∧
    (pairs = [] → (RankingService.updateItemRanks db rid pairs u).items = db.items) ∧
    ((∀ it ∈ db.itemsOf rid, 0 ≤ it.rank) →
      RankingService.rankOffset db rid =
        RankingService.sqlMaxRank ((db.itemsOf rid).map (fun it => it.rank)) + 1000) := by
  have hchar := updateItemRanks_items_eq db rid pairs u hk
  refine ⟨updateItemRanks_rankings db rid pairs u, hchar, ?_, ?_, ?_, ?_⟩
  · intro it hmem hrk t hlk
    rw [hchar]
    refine List.mem_map.mpr ⟨it, hmem, ?_⟩
    simp [hrk, hlk]
  · intro it hmem hcase
    rw [hchar]
    refine List.mem_map.mpr ⟨it, hmem, ?_⟩
    rcases hcase with hrk | hlk
    · simp [hrk]
    · simp [hlk]
  · intro hnil
    subst hnil
    rw [hchar]
    simp only [List.lookup_nil]
    refine (List.map_congr_left ?_).trans (List.map_id _)
    intro it _
    split <;> rfl
  · intro hnn
    have h0 : 0 ≤ RankingService.sqlMaxRank ((db.itemsOf rid).map (fun it => it.rank)) := by
      refine sqlMaxRank_nonneg _ ?_
      intro x hx
      obtain ⟨it, hit, hxe⟩ := List.mem_map.mp hx
      rw [← hxe]
      exact hnn it hit
    simp only [RankingService.rankOffset]
    rw [if_neg (by omega)]

/-- Witness for C3: a ranking with items 1, 2, 3 at ranks 1, 2, 3 reordered by
the full mapping item 3 to rank 1, item 1 to rank 2, item 2 to rank 3. -/
theorem C3_updateItemRanks_reorder_witness :
    (RankingService.updateItemRanks
      ⟨[⟨1, "anonymous", "t", none, none, false⟩],
       [⟨1, 1, "anonymous", "A", none, 1, none, false⟩,
        ⟨2, 1, "anonymous", "B", none, 2, none, false⟩,
        ⟨3, 1, "anonymous", "C", none, 3, none, false⟩], [], 2, 4, 1⟩
      1 [(3, 1), (1, 2), (2, 3)] none).rankings =
      [⟨1, "anonymous", "t", none, none, false⟩] ∧
    ((RankingService.updateItemRanks
      ⟨[⟨1, "anonymous", "t", none, none, false⟩],
       [⟨1, 1, "anonymous", "A", none, 1, none, false⟩,
        ⟨2, 1, "anonymous", "B", none, 2, none, false⟩,
        ⟨3, 1, "anonymous", "C", none, 3, none, false⟩], [], 2, 4, 1⟩
      1 [(3, 1), (1, 2), (2, 3)] none).items).map (fun it => (it.id, it.rank)) =
      [(1, 2), (2, 3), (3, 1)] ∧
    RankingService.rankOffset
      ⟨[⟨1, "anonymous", "t", none, none, false⟩],
       [⟨1, 1, "anonymous", "A", none, 1, none, false⟩,
        ⟨2, 1, "anonymous", "B", none, 2, none, false⟩,
        ⟨3, 1, "anonymous", "C", none, 3, none, false⟩], [], 2, 4, 1⟩ 1 =
      RankingService.sqlMaxRank
        (((⟨[⟨1, "anonymous", "t", none, none, false⟩],
            [⟨1, 1, "anonymous", "A", none, 1, none, false⟩,
             ⟨2, 1, "anonymous", "B", none, 2, none, false⟩,
             ⟨3, 1, "anonymous", "C", none, 3, none, false⟩], [], 2, 4, 1⟩ : DB).itemsOf
          1).map (fun it => it.rank)) + 1000 := by
  have h := C3_updateItemRanks_reorder
    ⟨[⟨1, "anonymous", "t", none, none, false⟩],
     [⟨1, 1, "anonymous", "A", none, 1, none, false⟩,
      ⟨2, 1, "anonymous", "B", none, 2, none, false⟩,
      ⟨3, 1, "anonymous", "C", none, 3, none, false⟩], [], 2, 4, 1⟩
    1 [(3, 1), (1, 2), (2, 3)] none (by decide)
  exact ⟨h.1, by decide, h.2.2.2.2.2 (by decide)⟩

theorem insertItemsAux_items (rid : Nat) (u : String) :
    ∀ (l : List ParsedItem) (r : Int) (db : DB),
      ((RankingService.insertItemsAux rid u l r db).1).items =
        db.items ++ buildRows rid u l r db.nextItemId := by
  intro l
  induction l with
  | nil =>
    intro r db
    simp [RankingService.insertItemsAux, buildRows]
  | cons p rest ih =>
    intro r db
    simp only [RankingService.insertItemsAux, buildRows]
    rw [ih (r + 1)]
    simp

theorem buildRows_ranking_id (rid : Nat) (u : String) :
    ∀ (l : List ParsedItem) (r : Int) (nid : Nat),
      ∀ x ∈ buildRows rid u l r nid, x.ranking_id = rid := by
  intro l
  induction l with
  | nil => intro r nid x hx; cases hx
  | cons p rest ih =>
    intro r nid x hx
    cases hx with
    | head => rfl
    | tail _ hmem => exact ih (r + 1) (nid + 1) x hmem

theorem buildRows_length (rid : Nat) (u : String) :
    ∀ (l : List ParsedItem) (r : Int) (nid : Nat),
      (buildRows rid u l r nid).length = l.length := by
  intro l
  induction l with
  | nil => intro r nid; rfl
  | cons p rest ih =>
    intro r nid
    simp only [buildRows, List.length_cons, ih (r + 1) (nid + 1)]

theorem buildRows_countP (rid : Nat) (u : String) (k : Int) :
    ∀ (l : List ParsedItem) (r : Int) (nid : Nat),
      (buildRows rid u l r nid).countP (fun x => x.rank = k) =
        if r ≤ k ∧ k < r + l.length then 1 else 0 := by
  intro l
  induction l with
  | nil =>
    intro r nid
    simp only [buildRows, List.countP_nil, List.length_nil]
    split
    · rename_i hc
      omega
    · rfl
  | cons p rest ih =>
    intro r nid
    simp only [buildRows, List.countP_cons, ih (r + 1) (nid + 1), List.length_cons,
      decide_eq_true_eq]
    push_cast
    split_ifs <;> omega

theorem createRanking_items (db : DB) (data : RankingFormData) (u : String) :
    ((RankingService.createRanking db data u).1).items =
      db.items ++ buildRows db.nextRankingId u (data.importedItems.getD []) 1 db.nextItemId := by
  simp only [RankingService.createRanking]
  split
  · rw [enqueue_items]
    rcases hI : data.importedItems with _ | l
    · simp [buildRows]
    · simp only [Option.getD_some]
      split
      · rw [insertItemsAux_items]
      · rename_i hlen
        have hl : l = [] := List.length_eq_zero.mp (by omega)
        subst hl
        simp [buildRows]
  · rcases hI : data.importedItems with _ | l
    · simp [buildRows]
    · simp only [Option.getD_some]
      split
      · rw [insertItemsAux_items]
      · rename_i hlen
        have hl : l = [] := List.length_eq_zero.mp (by omega)
        subst hl
        simp [buildRows]

theorem createRanking_contiguous (db : DB) (data : RankingFormData) (u : String)
    (hfresh : ∀ it ∈ db.items, it.ranking_id ≠ db.nextRankingId) :
    ranksContiguous (RankingService.createRanking db data u).1 db.nextRankingId := by
  intro k
  have hrows := createRanking_items db data u
  unfold rankCount DB.itemsOf
  rw [hrows, List.filter_append]
  have h1 : db.items.filter (fun it => it.ranking_id = db.nextRankingId) = [] := by
    rw [List.filter_eq_nil_iff]
    intro a ha
    simpa using hfresh a ha
  have h2 : (buildRows db.nextRankingId u (data.importedItems.getD []) 1
      db.nextItemId).filter (fun it => it.ranking_id = db.nextRankingId) =
      buildRows db.nextRankingId u (data.importedItems.getD []) 1 db.nextItemId := by
    rw [List.filter_eq_self]
    intro a ha
    simpa using buildRows_ranking_id db.nextRankingId u _ 1 db.nextItemId a ha
  rw [h1, h2, List.nil_append, buildRows_countP, buildRows_length]
  split_ifs <;> omega

theorem find_by_id_of_mem_nodup :
    ∀ (l : List ItemRow), (l.map (fun x => x.id)).Nodup → ∀ a ∈ l,
      l.find? (fun x => x.id = a.id) = some a := by
  intro l
  induction l with
  | nil => intro _ a ha; cases ha
  | cons x xs ih =>
    intro hn a ha
    rw [List.map_cons, List.nodup_cons] at hn
    cases ha with
    | head =>
      rw [List.find?_cons_of_pos _ (by simp)]
    | tail _ hmem =>
      have hne : ¬ x.id = a.id := by
        intro hc
        exact hn.1 (hc ▸ List.mem_map_of_mem _ hmem)
      rw [List.find?_cons_of_neg _ (by simpa using hne)]
      exact ih hn.2 a hmem

theorem filter_id_eq_single :
    ∀ (l : List ItemRow), (l.map (fun x => x.id)).Nodup → ∀ a ∈ l,
      l.filter (fun x => x.id = a.id) = [a] := by
  intro l
  induction l with
  | nil => intro _ a ha; cases ha
  | cons x xs ih =>
    intro hn a ha
    rw [List.map_cons, List.nodup_cons] at hn
    cases ha with
    | head =>
      rw [List.filter_cons_of_pos (by simp)]
      have hnil : xs.filter (fun y => y.id = x.id) = [] := by
        rw [List.filter_eq_nil_iff]
        intro y hy hc
        simp only [decide_eq_true_eq] at hc
        exact hn.1 (hc ▸ List.mem_map_of_mem _ hy)
      rw [hnil]
    | tail _ hmem =>
      have hne : ¬ x.id = a.id := by
        intro hc
        exact hn.1 (hc ▸ List.mem_map_of_mem _ hmem)
      rw [List.filter_cons_of_neg (by simpa using hne)]
      exact ih hn.2 a hmem

theorem perm_cons_filter_ne (l : List ItemRow)
    (hn : (l.map (fun x => x.id)).Nodup) (a : ItemRow) (ha : a ∈ l) :
    List.Perm l (a :: l.filter (fun x => x.id ≠ a.id)) := by
  have hfe : l.filter (fun x => x.id ≠ a.id) =
      l.filter (fun x => !(decide (x.id = a.id))) := by
    refine List.filter_congr ?_
    intro x _
    simp
  rw [hfe]
  have hperm := List.filter_append_perm (fun x => x.id = a.id) l
  rw [filter_id_eq_single l hn a ha] at hperm
  exact hperm.symm

theorem deleteItem_ok_items (db : DB) (i : Nat) (item : ItemRow) (db' : DB)
    (hf : db.items.find? (fun x => x.id = i) = some item)
    (h : RankingService.deleteItem db i = Except.ok db') :
    db'.items = (db.items.filter (fun x => x.id ≠ i)).map (fun x =>
      if x.ranking_id = item.ranking_id ∧ x.rank > item.rank then
        { x with rank := x.rank - 1 }
      else x) := by
  simp only [RankingService.deleteItem, hf] at h
  split at h <;> simp only [Except.ok.injEq] at h <;> subst h
  · exact enqueue_items ..
  · rfl

theorem itemsOf_ranking_eq {db : DB} {rid : Nat} {x : ItemRow}
    (hx : x ∈ db.itemsOf rid) : x.ranking_id = rid := by
  unfold DB.itemsOf at hx
  have := List.mem_filter.mp hx
  simpa using this.2

theorem deleteItem_contiguous (db : DB) (i : Nat) (it : ItemRow) (db' : DB)
    (hids : (db.items.map (fun x => x.id)).Nodup)
    (hmem : it ∈ db.items) (hid : it.id = i)
    (hcont : ranksContiguous db it.ranking_id)
    (h : RankingService.deleteItem db i = Except.ok db') :
    ranksContiguous db' it.ranking_id := by
  subst hid
  unfold ranksContiguous rankCount at hcont ⊢
  have hf : db.items.find? (fun x => x.id = it.id) = some it :=
    find_by_id_of_mem_nodup db.items hids it hmem
  have hitems := deleteItem_ok_items db it.id it db' hf h
  have hAsub : ((db.itemsOf it.ranking_id).map (fun x => x.id)).Nodup := by
    refine List.Nodup.sublist (List.Sublist.map _ ?_) hids
    exact List.filter_sublist _
  have hitmem : it ∈ db.itemsOf it.ranking_id := by
    refine List.mem_filter.mpr ⟨hmem, by simp⟩
  have hperm := perm_cons_filter_ne (db.itemsOf it.ranking_id) hAsub it hitmem
  have hsplit : ∀ j : Int,
      (db.itemsOf it.ranking_id).countP (fun x => x.rank = j) =
        ((db.itemsOf it.ranking_id).filter (fun x => x.id ≠ it.id)).countP
          (fun x => x.rank = j) + (if it.rank = j then 1 else 0) := by
    intro j
    rw [hperm.countP_eq, List.countP_cons]
    simp
  have hrange : 1 ≤ it.rank ∧
      it.rank ≤ ((db.itemsOf it.ranking_id).length : Int) := by
    have hpos : 0 < (db.itemsOf it.ranking_id).countP (fun x => x.rank = it.rank) := by
      rw [List.countP_pos_iff]
      exact ⟨it, hitmem, by simp⟩
    have hc := hcont it.rank
    by_contra hcneg
    rw [if_neg hcneg] at hc
    omega
  have hlenA : (db.itemsOf it.ranking_id).length =
      ((db.itemsOf it.ranking_id).filter (fun x => x.id ≠ it.id)).length + 1 := by
    rw [hperm.length_eq]
    rfl
  have hBA_r : ((db.itemsOf it.ranking_id).filter (fun x => x.id ≠ it.id)).countP
      (fun x => x.rank = it.rank) = 0 := by
    have hs := hsplit it.rank
    have hc := hcont it.rank
    rw [if_pos ⟨hrange.1, hrange.2⟩] at hc
    rw [if_pos rfl] at hs
    omega
  have hBA_no_r : ∀ x ∈ (db.itemsOf it.ranking_id).filter (fun x => x.id ≠ it.id),
      x.rank ≠ it.rank := by
    intro x hx
    have := List.countP_eq_zero.mp hBA_r x hx
    simpa using this
  have hnew : db'.items.filter (fun x => x.ranking_id = it.ranking_id) =
      ((db.itemsOf it.ranking_id).filter (fun x => x.id ≠ it.id)).map (fun x =>
        if x.ranking_id = it.ranking_id ∧ x.rank > it.rank then
          { x with rank := x.rank - 1 }
        else x) := by
    rw [hitems, List.filter_map]
    have hpt : ((db.items.filter (fun x => x.id ≠ it.id)).filter
        ((fun x => x.ranking_id = it.ranking_id) ∘ (fun x =>
          if x.ranking_id = it.ranking_id ∧ x.rank > it.rank then
            { x with rank := x.rank - 1 }
          else x))) =
        ((db.items.filter (fun x => x.id ≠ it.id)).filter
          (fun x => x.ranking_id = it.ranking_id)) := by
      refine List.filter_congr ?_
      intro x _
      simp only [Function.comp_apply]
      split
      · rfl
      · rfl
    rw [hpt, List.filter_comm]
    rfl
  intro k
  unfold DB.itemsOf
  rw [hnew, List.countP_map, List.length_map]
  by_cases hk : k < it.rank
  · have hpoint : ∀ x ∈ (db.itemsOf it.ranking_id).filter (fun x => x.id ≠ it.id),
        ((if x.ranking_id = it.ranking_id ∧ x.rank > it.rank then
            ({ x with rank := x.rank - 1 } : ItemRow)
          else x).rank = k) ↔ (x.rank = k) := by
      intro x hx
      have hxno := hBA_no_r x hx
      by_cases hcnd : x.ranking_id = it.ranking_id ∧ x.rank > it.rank
      · rw [if_pos hcnd]
        show x.rank - 1 = k ↔ x.rank = k
        constructor
        · intro hh
          exfalso
          omega
        · intro hh
          exfalso
          omega
      · rw [if_neg hcnd]
    have hcp : List.countP ((fun x => decide (x.rank = k)) ∘ (fun x =>
        if x.ranking_id = it.ranking_id ∧ x.rank > it.rank then
          { x with rank := x.rank - 1 } else x))
        ((db.itemsOf it.ranking_id).filter (fun x => x.id ≠ it.id)) =
        List.countP (fun x => decide (x.rank = k))
          ((db.itemsOf it.ranking_id).filter (fun x => x.id ≠ it.id)) := by
      refine List.countP_congr ?_
      intro x hx
      simp only [Function.comp_apply, decide_eq_true_eq]
      exact hpoint x hx
    rw [hcp]
    have hs := hsplit k
    rw [if_neg (by omega)] at hs
    have hc := hcont k
    split_ifs with hgoal
    · rw [hc] at hs
      rw [if_pos (by omega)] at hs
      omega
    · rw [hc] at hs
      have : ¬ (1 ≤ k ∧ k ≤ ((db.itemsOf it.ranking_id).length : Int)) := by
        omega
      rw [if_neg this] at hs
      omega
  · have hpoint : ∀ x ∈ (db.itemsOf it.ranking_id).filter (fun x => x.id ≠ it.id),
        ((if x.ranking_id = it.ranking_id ∧ x.rank > it.rank then
            ({ x with rank := x.rank - 1 } : ItemRow)
          else x).rank = k) ↔ (x.rank = k + 1) := by
      intro x hx
      have hxno := hBA_no_r x hx
      have hxrk : x.ranking_id = it.ranking_id :=
        itemsOf_ranking_eq (List.mem_filter.mp hx).1
      by_cases hcnd : x.ranking_id = it.ranking_id ∧ x.rank > it.rank
      · rw [if_pos hcnd]
        show x.rank - 1 = k ↔ x.rank = k + 1
        omega
      · rw [if_neg hcnd]
        have hnotgt : ¬ x.rank > it.rank := by
          intro hg
          exact hcnd ⟨hxrk, hg⟩
        constructor
        · intro hh
          exfalso
          omega
        · intro hh
          exfalso
          omega
    have hcp : List.countP ((fun x => decide (x.rank = k)) ∘ (fun x =>
        if x.ranking_id = it.ranking_id ∧ x.rank > it.rank then
          { x with rank := x.rank - 1 } else x))
        ((db.itemsOf it.ranking_id).filter (fun x => x.id ≠ it.id)) =
        List.countP (fun x => decide (x.rank = k + 1))
          ((db.itemsOf it.ranking_id).filter (fun x => x.id ≠ it.id)) := by
      refine List.countP_congr ?_
      intro x hx
      simp only [Function.comp_apply, decide_eq_true_eq]
      exact hpoint x hx
    rw [hcp]
    have hs := hsplit (k + 1)
    rw [if_neg (by omega)] at hs
    have hc := hcont (k + 1)
    split_ifs with hgoal
    · rw [hc] at hs
      rw [if_pos (by omega)] at hs
      omega
    · rw [hc] at hs
      have : ¬ (1 ≤ k + 1 ∧ k + 1 ≤ ((db.itemsOf it.ranking_id).length : Int)) := by
        omega
      rw [if_neg this] at hs
      omega

theorem addItem_fst_items (db : DB) (rid : Nat) (d : AddItemData) (u : Option String) :
    ((RankingService.addItem db rid d u).1).items =
      db.items ++
        [{ id := db.nextItemId, ranking_id := rid,
           user_id := RankingService.addItemEff db rid u, name := d.name,
           notes := jsOrStr d.notes, rank := d.rank, supabase_id := none,
           synced := false }] := by
  show (if RankingService.addItemEff db rid u ≠ "anonymous" then _ else _ : DB).items = _
  split
  · rw [enqueue_items]
  · rfl

theorem addItem_end_contiguous (db : DB) (rid : Nat) (d : AddItemData)
    (u : Option String) (hrank : d.rank = ((db.itemsOf rid).length : Int) + 1)
    (hcont : ranksContiguous db rid) :
    ranksContiguous ((RankingService.addItem db rid d u).1) rid := by
  unfold ranksContiguous rankCount DB.itemsOf at hcont ⊢
  intro k
  rw [addItem_fst_items db rid d u, List.filter_append, List.countP_append,
    List.length_append]
  simp only [List.filter_cons, List.filter_nil, List.countP_cons, List.countP_nil,
    List.length_cons, List.length_nil, decide_eq_true_eq, decide_True, if_true]
  have hc := hcont k
  rw [hrank]
  simp only [Nat.add_zero, Nat.zero_add]
  unfold DB.itemsOf at *
  by_cases hsel : ((List.filter (fun x => decide (x.ranking_id = rid)) db.items).length : Int)
      + 1 = k
  · rw [if_pos hsel]
    split_ifs at hc ⊢ <;> push_cast at * <;> omega
  · rw [if_neg hsel]
    split_ifs at hc ⊢ <;> push_cast at * <;> omega

theorem updateItemRanks_perm_contiguous (db : DB) (rid : Nat)
    (pairs : List (Nat × Int)) (u : Option String)
    (hids : (db.items.map (fun x => x.id)).Nodup)
    (hkeys : (pairs.map Prod.fst).Nodup)
    (hcover : ∀ x ∈ db.itemsOf rid, x.id ∈ pairs.map Prod.fst)
    (hin : ∀ p ∈ pairs, ∃ x ∈ db.itemsOf rid, x.id = p.1)
    (htargets : ∀ k : Int, pairs.countP (fun p => p.2 = k) =
      if 1 ≤ k ∧ k ≤ (pairs.length : Int) then 1 else 0) :
    ranksContiguous (RankingService.updateItemRanks db rid pairs u) rid := by
  have hchar := updateItemRanks_items_eq db rid pairs u hkeys
  have hAids : ((db.itemsOf rid).map (fun x => x.id)).Nodup := by
    refine List.Nodup.sublist (List.Sublist.map _ ?_) hids
    exact List.filter_sublist _
  have hperm : List.Perm ((db.itemsOf rid).map (fun x => x.id)) (pairs.map Prod.fst) := by
    refine List.perm_of_nodup_nodup_toFinset_eq hAids hkeys ?_
    refine Finset.ext ?_
    intro a
    simp only [List.mem_toFinset]
    constructor
    · intro ha
      obtain ⟨x, hx, hxe⟩ := List.mem_map.mp ha
      exact hxe ▸ hcover x hx
    · intro ha
      obtain ⟨p, hp, hpe⟩ := List.mem_map.mp ha
      obtain ⟨x, hxA, hxid⟩ := hin p hp
      refine List.mem_map.mpr ⟨x, hxA, ?_⟩
      rw [hxid, hpe]
  have hlen : (db.itemsOf rid).length = pairs.length := by
    have := hperm.length_eq
    simpa using this
  have hnew : (RankingService.updateItemRanks db rid pairs u).items.filter
      (fun x => x.ranking_id = rid) =
      (db.itemsOf rid).map (fun it =>
        if it.ranking_id = rid then
          match List.lookup it.id pairs with
          | some t => { it with rank := t }
          | none => it
        else it) := by
    rw [hchar, List.filter_map]
    have hpt : (db.items.filter ((fun x => x.ranking_id = rid) ∘ (fun it =>
        if it.ranking_id = rid then
          match List.lookup it.id pairs with
          | some t => { it with rank := t }
          | none => it
        else it))) = db.items.filter (fun x => x.ranking_id = rid) := by
      refine List.filter_congr ?_
      intro x _
      simp only [Function.comp_apply]
      split
      · split
        · rfl
        · rfl
      · rfl
    rw [hpt]
    rfl
  intro k
  unfold rankCount DB.itemsOf
  have hgoal_eq : (RankingService.updateItemRanks db rid pairs u).items.filter
      (fun x => x.ranking_id = rid) =
      (db.itemsOf rid).map (fun it =>
        if it.ranking_id = rid then
          match List.lookup it.id pairs with
          | some t => { it with rank := t }
          | none => it
        else it) := hnew
  rw [hgoal_eq, List.countP_map, List.length_map]
  have e1 : List.countP ((fun x => decide (x.rank = k)) ∘ (fun it =>
      if it.ranking_id = rid then
        match List.lookup it.id pairs with
        | some t => ({ it with rank := t } : ItemRow)
        | none => it
      else it)) (db.itemsOf rid) =
      List.countP ((fun a => decide ((List.lookup a pairs).getD 0 = k)) ∘
        (fun x : ItemRow => x.id)) (db.itemsOf rid) := by
    refine List.countP_congr ?_
    intro x hx
    have hxrk : x.ranking_id = rid := itemsOf_ranking_eq hx
    obtain ⟨p, hp, hpe⟩ := List.mem_map.mp (hcover x hx)
    have hsome : List.lookup x.id pairs = some p.2 := by
      rw [← hpe]
      exact lookup_eq_some_of_mem_nodup pairs hkeys p hp
    simp only [Function.comp_apply, hxrk, if_true, hsome, decide_eq_true_eq,
      Option.getD_some]
  rw [e1, ← List.countP_map, hperm.countP_eq, List.countP_map]
  have e2 : List.countP ((fun a => decide ((List.lookup a pairs).getD 0 = k)) ∘
      Prod.fst) pairs = List.countP (fun p => decide (p.2 = k)) pairs := by
    refine List.countP_congr ?_
    intro p hp
    have hsome := lookup_eq_some_of_mem_nodup pairs hkeys p hp
    simp only [Function.comp_apply, hsome, Option.getD_some, decide_eq_true_eq]
  rw [e2]
  have ht := htargets k
  rw [ht]
  split_ifs <;> omega

/-- Claim C1, counterexample: `addItem` takes the rank from its caller, so
inserting with rank 7 into a ranking with no items leaves the rank set {7},
not {1} — contiguity does not hold after every Record Service operation. -/
theorem C1_counterexample :
    ¬ ranksContiguous
      ((RankingService.addItem ⟨[⟨1, "anonymous", "t", none, none, false⟩], [], [], 2, 1, 1⟩
        1 ⟨"X", none, 7⟩ none).1) 1 := by
  intro h
  exact absurd (h 7) (by decide)

/-- Claim C1 (amended): rank contiguity (the rank multiset of a ranking is
exactly 1..N) is established by `createRanking` and preserved by `deleteItem`
unconditionally, but by `addItem` only when the caller passes
rank = item count + 1, and by `updateItemRanks` only when the target mapping
covers the ranking's items bijectively with ranks 1..N — the Record Service
itself does not enforce the invariant against other inputs. -/
theorem C1_rank_contiguity_amended :
    (∀ (db : DB) (data : RankingFormData) (u : String),
        (∀ it ∈ db.items, it.ranking_id ≠ db.nextRankingId) →
        ranksContiguous (RankingService.createRanking db data u).1 db.nextRankingId) ∧
    (∀ (db : DB) (i : Nat) (it : ItemRow) (db' : DB),
        (db.items.map (fun x => x.id)).Nodup → it ∈ db.items → it.id = i →
        ranksContiguous db it.ranking_id →
        RankingService.deleteItem db i = Except.ok db' →
        ranksContiguous db' it.ranking_id) ∧
    (∀ (db : DB) (rid : Nat) (d : AddItemData) (u : Option String),
        d.rank = ((db.itemsOf rid).length : Int) + 1 →
        ranksContiguous db rid →
        ranksContiguous ((RankingService.addItem db rid d u).1) rid) ∧
    (∀ (db : DB) (rid : Nat) (pairs : List (Nat × Int)) (u : Option String),
        (db.items.map (fun x => x.id)).Nodup →
        (pairs.map Prod.fst).Nodup →
        (∀ x ∈ db.itemsOf rid, x.id ∈ pairs.map Prod.fst) →
        (∀ p ∈ pairs, ∃ x ∈ db.itemsOf rid, x.id = p.1) →
        (∀ k : Int, pairs.countP (fun p => p.2 = k) =
          if 1 ≤ k ∧ k ≤ (pairs.length : Int) then 1 else 0) →
        ranksContiguous (RankingService.updateItemRanks db rid pairs u) rid) :=
  ⟨createRanking_contiguous, deleteItem_contiguous, addItem_end_contiguous,
    updateItemRanks_perm_contiguous⟩

/-- Witness for C1 at concrete inputs: creating a ranking from two imported
lines, deleting the rank-2 item of a four-item ranking, appending at
rank = count + 1, and reordering a three-item ranking by a full permutation
all leave the rank multiset contiguous. -/
theorem C1_rank_contiguity_amended_witness :
    ranksContiguous (RankingService.createRanking ⟨[], [], [], 1, 1, 1⟩
      ⟨"M", "", some [⟨"A", none⟩, ⟨"B", none⟩]⟩ "anonymous").1 1 ∧
    ranksContiguous
      ⟨[⟨1, "anonymous", "t", none, none, false⟩],
       [⟨1, 1, "anonymous", "w", none, 1, none, false⟩,
        ⟨3, 1, "anonymous", "y", none, 2, none, false⟩,
        ⟨4, 1, "anonymous", "z", none, 3, none, false⟩], [], 2, 5, 1⟩ 1 ∧
    ranksContiguous ((RankingService.addItem
      ⟨[⟨1, "anonymous", "t", none, none, false⟩],
       [⟨1, 1, "anonymous", "a", none, 1, none, false⟩,
        ⟨2, 1, "anonymous", "b", none, 2, none, false⟩], [], 2, 3, 1⟩
      1 ⟨"c", none, 3⟩ none).1) 1 ∧
    ranksContiguous (RankingService.updateItemRanks
      ⟨[⟨1, "anonymous", "t", none, none, false⟩],
       [⟨1, 1, "anonymous", "A", none, 1, none, false⟩,
        ⟨2, 1, "anonymous", "B", none, 2, none, false⟩,
        ⟨3, 1, "anonymous", "C", none, 3, none, false⟩], [], 2, 4, 1⟩
      1 [(3, 1), (1, 2), (2, 3)] none) 1 := by
  have hc4 : ranksContiguous
      (⟨[⟨1, "anonymous", "t", none, none, false⟩],
        [⟨1, 1, "anonymous", "w", none, 1, none, false⟩,
         ⟨2, 1, "anonymous", "x", none, 2, none, false⟩,
         ⟨3, 1, "anonymous", "y", none, 3, none, false⟩,
         ⟨4, 1, "anonymous", "z", none, 4, none, false⟩], [], 2, 5, 1⟩ : DB) 1 := by
    intro k
    simp [rankCount, DB.itemsOf, List.countP_cons]
    split_ifs <;> omega
  have hc3 : ranksContiguous
      (⟨[⟨1, "anonymous", "t", none, none, false⟩],
        [⟨1, 1, "anonymous", "a", none, 1, none, false⟩,
         ⟨2, 1, "anonymous", "b", none, 2, none, false⟩], [], 2, 3, 1⟩ : DB) 1 := by
    intro k
    simp [rankCount, DB.itemsOf, List.countP_cons]
    split_ifs <;> omega
  refine ⟨?_, ?_, ?_, ?_⟩
  · exact C1_rank_contiguity_amended.1 ⟨[], [], [], 1, 1, 1⟩
      ⟨"M", "", some [⟨"A", none⟩, ⟨"B", none⟩]⟩ "anonymous" (by decide)
  · exact C1_rank_contiguity_amended.2.1
      ⟨[⟨1, "anonymous", "t", none, none, false⟩],
       [⟨1, 1, "anonymous", "w", none, 1, none, false⟩,
        ⟨2, 1, "anonymous", "x", none, 2, none, false⟩,
        ⟨3, 1, "anonymous", "y", none, 3, none, false⟩,
        ⟨4, 1, "anonymous", "z", none, 4, none, false⟩], [], 2, 5, 1⟩
      2 ⟨2, 1, "anonymous", "x", none, 2, none, false⟩
      ⟨[⟨1, "anonymous", "t", none, none, false⟩],
       [⟨1, 1, "anonymous", "w", none, 1, none, false⟩,
        ⟨3, 1, "anonymous", "y", none, 2, none, false⟩,
        ⟨4, 1, "anonymous", "z", none, 3, none, false⟩], [], 2, 5, 1⟩
      (by decide) (by decide) (by decide) hc4 (by rfl)
  · exact C1_rank_contiguity_amended.2.2.1
      ⟨[⟨1, "anonymous", "t", none, none, false⟩],
       [⟨1, 1, "anonymous", "a", none, 1, none, false⟩,
        ⟨2, 1, "anonymous", "b", none, 2, none, false⟩], [], 2, 3, 1⟩
      1 ⟨"c", none, 3⟩ none (by decide) hc3
  · refine C1_rank_contiguity_amended.2.2.2
      ⟨[⟨1, "anonymous", "t", none, none, false⟩],
       [⟨1, 1, "anonymous", "A", none, 1, none, false⟩,
        ⟨2, 1, "anonymous", "B", none, 2, none, false⟩,
        ⟨3, 1, "anonymous", "C", none, 3, none, false⟩], [], 2, 4, 1⟩
      1 [(3, 1), (1, 2), (2, 3)] none (by decide) (by decide) (by decide) (by decide) ?_
    intro k
    simp [List.countP_cons]
    split_ifs <;> omega
